import Mathlib

/-!
toner: content registry, image transforms, metadata loading, build phases.

A shallow embedding of the parts of the static-site builder that the
specification makes checkable statements about:

* `contents` (content.go): the registry of content items and the
  destination-claim table;
* `contentGenImg` (acryliclib/content_gen_img.go): the transform signature,
  the scaling and cropping arithmetic, and `scale` with its result map;
* `content.load` and `content.processMeta` (content.go): front matter;
* `siteState.build` and `siteState.checkErrs` (site_state.go): the phased
  build and what it logs.

Conventions.  A Go `*content` is an address (`Ptr`) into a heap of content
objects, so that pointer comparison `co == c` is comparison of addresses.
A Go `map[string]T` is a function `String → Option T`.  A Go `error` is an
`Option String` holding the message (`none` is `nil`).  Every method that
runs under the registry mutex is one atomic step on the registry state.  The
calls of `scale` on one generator run side by side: each is a sequence of
steps on the state they share, and a schedule puts the steps in order.
-/

set_option autoImplicit false

namespace Toner

/-! ## Definitions -/

/-! ### content.go: the registry -/

/-- The fields of `file` that the registry reads. -/
structure file where
  srcPath : String
  dstPath : String
deriving DecidableEq, Repr

/-- The address of a content object: a Go `*content`. -/
abbrev Ptr := Nat

/-- The fields of `content` that the registry and the loader read and write
(`cs`, `tplContext` and `gen` hold no data of their own here; `meta` is the
sequence of blocks merged into the overlay so far, oldest first). -/
structure content where
  f : file
  cpath : String
  metaEnd : Nat
  «meta» : List (List UInt8)
deriving DecidableEq, Repr

/-- The registry `contents`: the site configuration it reads (`cs.s.cfg`),
the heap of content objects with the next free address, and its two maps. -/
structure contents where
  cfgRoot : String
  cfgPublicDir : String
  heap : Ptr → content
  next : Ptr
  srcs : String → Option Ptr
  dsts : String → Option Ptr

/-- The zero value of `content`, which fills the unallocated heap. -/
def content.zero : content :=
  { f := { srcPath := "", dstPath := "" }, cpath := "", metaEnd := 0, «meta» := [] }

/-- `contents.init`: both maps become empty maps. -/
def contents.init (cs : contents) : contents :=
  { cs with srcs := fun _ => none, dsts := fun _ => none }

/-- A registry before `init`, over a given heap. -/
def contents.blank (root pub : String) (heap : Ptr → content) : contents :=
  { cfgRoot := root, cfgPublicDir := pub, heap := heap, next := 0,
    srcs := fun _ => none, dsts := fun _ => none }

/-- The `map[key] = value` assignment. -/
def mapSet {β : Type} (m : String → Option β) (k : String) (v : β) : String → Option β :=
  fun x => if x = k then some v else m x

/-- The message built by `fmt.Errorf` in `claimDest`. -/
def conflictMsg (dst ownerSrc : String) : String :=
  "content conflict: destination file `" ++ dst ++ "` already generated by `" ++ ownerSrc ++ "`"

/-- `contents.claimDest(dst, c)`: the new registry, `alreadyClaimed`, `err`. -/
def contents.claimDest (cs : contents) (dst : String) (c : Ptr) :
    contents × Bool × Option String :=
  match cs.dsts dst with
  | some co =>
    if co = c then (cs, true, none)
    else (cs, false, some (conflictMsg dst (cs.heap co).f.srcPath))
  | none => ({ cs with dsts := mapSet cs.dsts dst c }, false, none)

/-- A sequence of `claimDest` calls, run in order; the registry afterwards. -/
def claimAll (cs : contents) : List (String × Ptr) → contents
  | [] => cs
  | (dst, c) :: rest => claimAll (cs.claimDest dst c).1 rest

/-- The first call of a sequence that names the path `dst`. -/
def firstClaimant (dst : String) : List (String × Ptr) → Option Ptr
  | [] => none
  | (d, c) :: rest => if d = dst then some c else firstClaimant dst rest

/-- A message names a path when the path occurs in it. -/
def names (msg path : String) : Prop := path.data <:+: msg.data

instance (msg path : String) : Decidable (names msg path) := by
  unfold names; infer_instance

/-- A two-item heap for the examples: address 0 is `a.md`, every other
address is `b.md`. -/
def demoHeap : Ptr → content := fun p =>
  if p = 0 then { content.zero with f := { srcPath := "a.md", dstPath := "out.html" } }
  else { content.zero with f := { srcPath := "b.md", dstPath := "out.html" } }

/-- The registry after `init` over `demoHeap`. -/
def demoContents : contents := (contents.blank "site" "public" demoHeap).init

/-! ### Go `int` arithmetic -/

/-- The value a 64-bit two's-complement `int` holds after an operation whose
exact result is `x`. -/
def wrap64 (x : Int) : Int :=
  (x + 9223372036854775808) % 18446744073709551616 - 9223372036854775808

/-- The values of a Go `int`. -/
def isInt64 (x : Int) : Prop := -9223372036854775808 ≤ x ∧ x < 9223372036854775808

instance (x : Int) : Decidable (isInt64 x) := by
  unfold isInt64; infer_instance

/-- Go `a + b` on `int`. -/
def goAdd (a b : Int) : Int := wrap64 (a + b)

/-- Go `a - b` on `int`. -/
def goSub (a b : Int) : Int := wrap64 (a - b)

/-- Go `a * b` on `int`. -/
def goMul (a b : Int) : Int := wrap64 (a * b)

/-- Go `a / b` on `int`: truncated division; `none` is the run-time panic on
division by zero. -/
def goDiv (a b : Int) : Option Int :=
  if b = 0 then none else some (wrap64 (Int.tdiv a b))

/-! ### acryliclib/content_gen_img.go -/

/-- The type `imgCrop` is an `int`. -/
abbrev imgCrop := Int

def cropNone : imgCrop := 0

def cropLeft : imgCrop := 1

def cropCentered : imgCrop := 2

def cropLen : imgCrop := 3

/-- The transform request `img`. -/
structure img where
  src : String
  ext : String
  w : Int
  h : Int
  crop : imgCrop
deriving DecidableEq, Repr

/-- `imgCrop.String`. -/
def imgCrop.String (c : imgCrop) : String :=
  if c = cropLeft then "left"
  else if c = cropCentered then "centered"
  else "none"

/-- `fmt.Sprintf("%d", n)`: the decimal text of an `int`, with a leading `-`
when negative. -/
def fmtD (n : Int) : String := toString n

/-- `fmt.Sprintf("%c", s[0])` for a non-empty string whose first byte is ASCII
(the three names returned by `imgCrop.String` are). -/
def fmtC0 (s : String) : String := String.singleton (s.get 0)

/-- `contentGenImg.getNewExt`. -/
def getNewExt (i : img) : String :=
  let ext := ""
  let ext := if i.w ≠ 0 ∨ i.h ≠ 0 then ext ++ (fmtD i.w ++ "x" ++ fmtD i.h) else ext
  let ext := if i.crop ≠ cropNone then ext ++ (".c" ++ fmtC0 (imgCrop.String i.crop)) else ext
  ext ++ i.ext

/-- `image.Point`. -/
structure Point where
  X : Int
  Y : Int
deriving DecidableEq, Repr

/-- `image.Rectangle`. -/
structure Rectangle where
  Min : Point
  Max : Point
deriving DecidableEq, Repr

/-- `Rectangle.Dx`. -/
def Rectangle.Dx (r : Rectangle) : Int := goSub r.Max.X r.Min.X

/-- `Rectangle.Dy`. -/
def Rectangle.Dy (r : Rectangle) : Int := goSub r.Max.Y r.Min.Y

/-- `Rectangle.Empty`. -/
def Rectangle.Empty (r : Rectangle) : Bool := decide (r.Min.X ≥ r.Max.X ∨ r.Min.Y ≥ r.Max.Y)

/-- `Rectangle.Intersect`. -/
def Rectangle.Intersect (r s : Rectangle) : Rectangle :=
  let r : Rectangle := if r.Min.X < s.Min.X then { r with Min := { r.Min with X := s.Min.X } } else r
  let r : Rectangle := if r.Min.Y < s.Min.Y then { r with Min := { r.Min with Y := s.Min.Y } } else r
  let r : Rectangle := if r.Max.X > s.Max.X then { r with Max := { r.Max with X := s.Max.X } } else r
  let r : Rectangle := if r.Max.Y > s.Max.Y then { r with Max := { r.Max with Y := s.Max.Y } } else r
  if r.Empty then ⟨⟨0, 0⟩, ⟨0, 0⟩⟩ else r

/-- The size `(Dx, Dy)` of the image returned by the library call
`imaging.Resize(ig, width, height, filter)` on a source of size `srcW` by
`srcH`, when neither requested dimension is zero: an empty image when a
requested dimension is negative or the source is empty, and an image of exactly
the requested size otherwise.  Both callers clamp a zero dimension to 1 first,
so the library's aspect-preserving treatment of a zero dimension (which it
computes in floating point) is never reached; it is given here in exact
arithmetic. -/
def imagingResize (srcW srcH width height : Int) : Int × Int :=
  if width < 0 ∨ height < 0 then (0, 0)
  else if width = 0 ∧ height = 0 then (0, 0)
  else if srcW ≤ 0 ∨ srcH ≤ 0 then (0, 0)
  else
    let dstW := if width = 0 then max 1 ((2 * height * srcW + srcH) / (2 * srcH)) else width
    let dstH := if height = 0 then max 1 ((2 * width * srcH + srcW) / (2 * srcW)) else height
    (dstW, dstH)

/-- The size of the image returned by the library call `imaging.Crop(ig, rect)`
on an image whose bounds are `(0,0)-(imgW,imgH)`: the size of the intersection
of `rect` with the bounds. -/
def imagingCrop (imgW imgH : Int) (rect : Rectangle) : Int × Int :=
  let r := rect.Intersect ⟨⟨0, 0⟩, ⟨imgW, imgH⟩⟩
  if r.Empty then (0, 0) else (r.Dx, r.Dy)

/-- `thumbnailImage`, lines 165-186: the cover-scaled size `(scaleW, scaleH)`
for a source of size `srcW` by `srcH`. -/
def thumbnailScale (srcW srcH : Int) (i : img) : Option (Int × Int) := do
  let (scaleW, scaleH) := (srcW, srcH)
  let (scaleW, scaleH) ←
    if scaleW < i.w then do
      let scaleH ← goDiv (goMul scaleH i.w) scaleW
      pure (i.w, scaleH)
    else pure (scaleW, scaleH)
  let (scaleW, scaleH) ←
    if scaleH < i.h then do
      let scaleW ← goDiv (goMul scaleW i.h) scaleH
      pure (scaleW, i.h)
    else pure (scaleW, scaleH)
  let scaleW := if scaleW = 0 then 1 else scaleW
  let scaleH := if scaleH = 0 then 1 else scaleH
  pure (scaleW, scaleH)

/-- `thumbnailImage`, lines 190-214: the crop window; `none` is the panic on an
unsupported crop option.  A division by the constant 2 is the truncated
quotient itself: it neither panics nor leaves the range of `int`. -/
def thumbnailCrop (scaleW scaleH : Int) (i : img) : Option Rectangle :=
  if i.crop = cropLeft then
    some { Min := { X := 0, Y := 0 }, Max := { X := i.w, Y := i.h } }
  else if i.crop = cropCentered then
    let centerX := Int.tdiv scaleW 2
    let centerY := Int.tdiv scaleH 2
    let x0 := goSub centerX (Int.tdiv i.w 2)
    let y0 := goSub centerY (Int.tdiv i.h 2)
    let x1 := goAdd x0 i.w
    let y1 := goAdd y0 i.h
    some { Min := { X := x0, Y := y0 }, Max := { X := x1, Y := y1 } }
  else none

/-- What `thumbnailImage` computes: the cover-scaled size, the crop window and
the size of the returned image. -/
structure Thumbnail where
  scaleW : Int
  scaleH : Int
  crop : Rectangle
  size : Int × Int
deriving DecidableEq, Repr

/-- `contentGenImg.thumbnailImage` on a source of size `srcW` by `srcH`. -/
def thumbnailImage (srcW srcH : Int) (i : img) : Option Thumbnail := do
  let (scaleW, scaleH) ← thumbnailScale srcW srcH i
  let resized := imagingResize srcW srcH scaleW scaleH
  let crop ← thumbnailCrop scaleW scaleH i
  pure { scaleW := scaleW, scaleH := scaleH, crop := crop,
         size := imagingCrop resized.1 resized.2 crop }

/-- `contentGenImg.resizeImage` on a source of size `srcW` by `srcH`: the size
of the returned image. -/
def resizeImage (srcW srcH : Int) (i : img) : Option (Int × Int) := do
  let (scaleW, scaleH) := (srcW, srcH)
  let (scaleW, scaleH) ←
    if i.h = 0 ∨ (scaleW > i.w ∧ i.w ≠ 0) ∨ (scaleW < i.w ∧ scaleH < i.h) then do
      let scaleH ← goDiv (goMul scaleH i.w) scaleW
      pure (i.w, scaleH)
    else pure (scaleW, scaleH)
  let (scaleW, scaleH) ←
    if i.w = 0 ∨ (scaleH > i.h ∧ i.h ≠ 0) ∨ (scaleW < i.w ∧ scaleH < i.h) then do
      let scaleW ← goDiv (goMul scaleW i.h) scaleH
      pure (scaleW, i.h)
    else pure (scaleW, scaleH)
  let scaleW := if scaleW = 0 then 1 else scaleW
  let scaleH := if scaleH = 0 then 1 else scaleH
  pure (imagingResize srcW srcH scaleW scaleH)

/-- `contentGenImg.scale`, lines 143-158: the dispatch on the request and the
size `(w, h)` of the image that is then saved, for a decoded source of size
`srcW` by `srcH`. -/
def scaleSwitch (srcW srcH : Int) (i : img) : Option (Int × Int) :=
  if i.w = 0 ∧ i.h = 0 then some (srcW, srcH)
  else if i.w ≠ 0 ∧ i.h ≠ 0 ∧ i.crop ≠ cropNone then
    (thumbnailImage srcW srcH i).map (fun t => t.size)
  else resizeImage srcW srcH i

/-- The cover scaling in the words of the spec, in exact arithmetic and with no
clamp: the width is raised to the requested width when it is short, the height
being recomputed in proportion; then the height is raised to the requested
height when it is short, the width being recomputed in proportion. -/
def coverScaleExact (srcW srcH : Int) (i : img) : Int × Int :=
  let s := if srcW < i.w then (i.w, srcH * i.w / srcW) else (srcW, srcH)
  if s.2 < i.h then (s.1 * i.h / s.2, i.h) else s

/-! ### content.go: metadata loading -/

/-- The bytes of a text, as Go's `[]byte(s)` gives them. -/
def utf8 (s : String) : List UInt8 := s.data.flatMap String.utf8EncodeChar

/-- The delimiter line `metaDelim`, the four bytes of `---` and a newline. -/
def metaDelim : List UInt8 := [45, 45, 45, 10]

/-- What the loader takes from outside this file: `bytes.TrimSpace`, and the
error (if any) that `meta.merge` returns for a block.  The blocks handed to
`meta.merge` are recorded, in order, in the field `meta` of `content`. -/
structure Lib where
  TrimSpace : List UInt8 → List UInt8
  mergeErr : List UInt8 → Option String

/-- How a call ends other than by returning: a run-time panic, or the loop
bound of the embedding being reached. -/
inductive Abort where
  | panic
  | outOfFuel
deriving DecidableEq, Repr

/-- What `load` and `processMeta` return: the `error`, and the content object
as the call leaves it. -/
structure Ret where
  err : Option String
  c : content
deriving DecidableEq, Repr

deriving instance DecidableEq for Except

/-- `bytes.HasPrefix`. -/
def HasPrefix (s pre : List UInt8) : Bool := pre.isPrefixOf s

/-- `bytes.Index(s, sep)`: the index of the first instance of `sep` in `s`, or
-1 if `sep` is not present. -/
def Index (s sep : List UInt8) : Int :=
  if sep.isPrefixOf s then 0
  else
    match s with
    | [] => -1
    | _ :: t => if Index t sep = -1 then -1 else Index t sep + 1

/-- `meta.merge(m)`, as far as the loader sees it: the block is recorded and the
error is returned. -/
def merge (L : Lib) (c : content) (m : List UInt8) : Ret :=
  { err := L.mergeErr m, c := { c with «meta» := c.«meta» ++ [m] } }

/-- `content.processMeta(m, isMetaFile)`.  The slice expression `m[3:]` panics
when `len(m) < 3`, and `m[3 : end+3]` panics when `end+3 < 3`. -/
def processMeta (L : Lib) (c : content) (m : List UInt8) (isMetaFile : Bool) :
    Except Abort Ret :=
  if !HasPrefix m metaDelim && !isMetaFile then .ok { err := none, c := c }
  else if m.length < 3 then .error .panic
  else
    let «end» := Index (m.drop 3) metaDelim
    if «end» == -1 && !isMetaFile then .ok { err := none, c := c }
    else if «end» + 3 < 3 then .error .panic
    else .ok (merge L c (L.TrimSpace ((m.take («end» + 3).toNat).drop 3)))

/-- `bufio.Reader.Read(p)` with `len(p) = n > 0` as the first read of a file
whose content is `buf`: the bytes read, the unread rest, and whether the error
is `io.EOF`.  The reader fills its buffer with one read of the file, so the
call yields the first `n` bytes, or all of them when the file is shorter, and
`io.EOF` with no bytes when the file is empty. -/
def Read (n : Nat) (buf : List UInt8) : List UInt8 × List UInt8 × Bool :=
  match buf with
  | [] => ([], [], true)
  | _ => (buf.take n, buf.drop n, false)

/-- `bufio.Reader.ReadBytes(delim)` on the unread bytes `buf`: the bytes up to
and including the first `delim`, the unread rest, and whether the error is
`io.EOF` (the input ended before a `delim`; the bytes read are still
returned). -/
def ReadBytes (delim : UInt8) : List UInt8 → List UInt8 × List UInt8 × Bool
  | [] => ([], [], true)
  | b :: bs =>
    if b = delim then ([b], bs, false)
    else ((b :: (ReadBytes delim bs).1), (ReadBytes delim bs).2.1, (ReadBytes delim bs).2.2)

/-- The loop of `load`, lines 163-171, entered with `err == nil`: the unread
bytes and the buffer `mb` go in; the buffer and whether `err` is `io.EOF` come
out.  One iteration per unit of fuel; `none` when the fuel is used up. -/
def loadLoop : Nat → List UInt8 → List UInt8 → Option (List UInt8 × Bool)
  | 0, _, _ => none
  | fuel + 1, rest, mb =>
    let l := (ReadBytes 10 rest).1
    let rest1 := (ReadBytes 10 rest).2.1
    let eof := (ReadBytes 10 rest).2.2
    let mb := mb ++ l
    if l = metaDelim then some (mb, eof)
    else if eof then some (mb, true)
    else loadLoop fuel rest1 mb

/-- Modelled from the spec: the helper `fChangeExt(path, ext)`, whose source is
not in this file set; the spec has it strip the extension (the suffix from the
last dot of the last path element, as `filepath.Ext` finds it) and put `ext` in
its place. -/
def fChangeExt (path ext : String) : String :=
  let rev := path.data.reverse
  let tail := rev.takeWhile (fun ch => ch ≠ '.' ∧ ch ≠ '/')
  match rev.drop tail.length with
  | '.' :: stem => String.mk stem.reverse ++ ext
  | _ => path ++ ext

/-- The error text of `load` for front matter that is never closed. -/
def missingClosingMsg : String :=
  "failed to read content metadata: metadata missing closing `---\n`"

/-- `content.load`, over a file system `fs` that gives the bytes of each file
that exists. -/
def load (L : Lib) (fs : String → Option (List UInt8)) (c : content) : Except Abort Ret :=
  let mp := fChangeExt c.f.srcPath ".meta"
  let sidecar : Except Abort Ret :=
    match fs mp with
    | some m => processMeta L c m true
    | none => .ok { err := none, c := c }
  match sidecar with
  | .error a => .error a
  | .ok { err := some e, c := c } => .ok { err := some e, c := c }
  | .ok { err := none, c := c } =>
    match fs c.f.srcPath with
    | none => .ok { err := some ("open " ++ c.f.srcPath ++ ": no such file or directory"), c := c }
    | some buf =>
      let del := (Read metaDelim.length buf).1
      let rest := (Read metaDelim.length buf).2.1
      let eof := (Read metaDelim.length buf).2.2
      if eof then .ok { err := none, c := c }
      else if del ≠ metaDelim then .ok { err := none, c := c }
      else
        match loadLoop (rest.length + 1) rest metaDelim with
        | none => .error .outOfFuel
        | some (_, true) => .ok { err := some missingClosingMsg, c := c }
        | some (mb, false) => processMeta L { c with metaEnd := mb.length } mb false

/-- The first part of `load`, lines 124-135: the sidecar file, when it exists,
is read and handed to `processMeta`; with no sidecar file nothing happens. -/
def loadSidecar (L : Lib) (fs : String → Option (List UInt8)) (c : content) :
    Except Abort Ret :=
  match fs (fChangeExt c.f.srcPath ".meta") with
  | some m => processMeta L c m true
  | none => .ok { err := none, c := c }

/-- The rest of `load`, lines 137-182: the source file is opened and its front
matter read. -/
def loadInline (L : Lib) (fs : String → Option (List UInt8)) (c : content) :
    Except Abort Ret :=
  match fs c.f.srcPath with
  | none => .ok { err := some ("open " ++ c.f.srcPath ++ ": no such file or directory"), c := c }
  | some buf =>
    let del := (Read metaDelim.length buf).1
    let rest := (Read metaDelim.length buf).2.1
    let eof := (Read metaDelim.length buf).2.2
    if eof then .ok { err := none, c := c }
    else if del ≠ metaDelim then .ok { err := none, c := c }
    else
      match loadLoop (rest.length + 1) rest metaDelim with
      | none => .error .outOfFuel
      | some (_, true) => .ok { err := some missingClosingMsg, c := c }
      | some (mb, false) => processMeta L { c with metaEnd := mb.length } mb false

/-- A concrete `Lib` for the examples: `bytes.TrimSpace` on ASCII text, and a
`meta.merge` that accepts every block. -/
def demoLib : Lib :=
  { TrimSpace := fun m =>
      let sp : UInt8 → Bool := fun b => b = 32 ∨ (9 ≤ b ∧ b ≤ 13)
      ((m.dropWhile sp).reverse.dropWhile sp).reverse
    mergeErr := fun _ => none }

/-- A fresh content object for the source `src.md`. -/
def demoContent : content :=
  { content.zero with f := { srcPath := "src.md", dstPath := "src.html" } }

/-- A file system that holds only `src.md`, with the given bytes. -/
def fsOne (buf : List UInt8) : String → Option (List UInt8) :=
  fun p => if p = "src.md" then some buf else none

/-- A file system that holds `src.md` and its sidecar `src.meta`, with the given
bytes. -/
def fsTwo (sidecar buf : List UInt8) : String → Option (List UInt8) :=
  fun p => if p = "src.md" then some buf else if p = "src.meta" then some sidecar else none

/-- A sequence of complete lines (each ends with a newline), none of which is
the delimiter line. -/
inductive BodyLines : List UInt8 → Prop where
  | nil : BodyLines []
  | cons (l rest : List UInt8) : (10 : UInt8) ∉ l → l ++ [10] ≠ metaDelim →
      BodyLines rest → BodyLines (l ++ 10 :: rest)

/-- The files of the test site that matter to `layouts/blog/layout2.css`: the
source and its sidecar `layout2.meta`, with the bytes the test gives them. -/
def testFs : String → Option (List UInt8) := fun p =>
  if p = "layouts/blog/layout2.css" then some (utf8 "{{ Page.Meta.val }} css!")
  else if p = "layouts/blog/layout2.meta" then some (utf8 "render: true\nval: layout 2")
  else none

/-- A fresh content object for `layouts/blog/layout2.css`. -/
def testContent : content :=
  { content.zero with
    f := { srcPath := "layouts/blog/layout2.css", dstPath := "layout/blog/layout2.css" } }

/-! ### path/filepath, for slash-separated paths -/

/-- `filepath.Ext`: the suffix beginning at the final dot in the final element
of the path, empty if there is no dot. -/
def Ext (path : String) : String :=
  let rev := path.data.reverse
  let tail := rev.takeWhile (fun ch => ch ≠ '.' ∧ ch ≠ '/')
  match rev.drop tail.length with
  | '.' :: _ => String.mk ('.' :: tail.reverse)
  | _ => ""

/-- The elements of a path: the pieces between slashes. -/
def splitSlash : List Char → List (List Char)
  | [] => [[]]
  | ch :: cs =>
    match splitSlash cs with
    | [] => [[ch]]
    | h :: t => if ch = '/' then [] :: h :: t else (ch :: h) :: t

/-- One element of the path taken in by `filepath.Clean`, the elements kept so
far being held last first: an empty element and `.` are dropped; `..` removes
the element before it, is kept when there is none to remove and the path is
not rooted, and is dropped at the root. -/
def cleanStep (rooted : Bool) (kept : List (List Char)) (elem : List Char) :
    List (List Char) :=
  if elem = [] ∨ elem = ['.'] then kept
  else if elem = ['.', '.'] then
    match kept with
    | top :: rest => if top = ['.', '.'] then elem :: kept else rest
    | [] => if rooted then [] else [elem]
  else elem :: kept

/-- `filepath.Clean`: the shortest path equivalent to `path` by purely lexical
processing. -/
def Clean (path : String) : String :=
  if path = "" then "."
  else
    let rooted := path.data.head? = some '/'
    let kept := (splitSlash path.data).foldl (cleanStep rooted) []
    let body := String.mk (List.intercalate ['/'] kept.reverse)
    if rooted then "/" ++ body
    else if body = "" then "."
    else body

/-- `filepath.Join`: the elements from the first non-empty one on, joined with
slashes and cleaned; the empty string when every element is empty. -/
def Join (elem : List String) : String :=
  match elem.dropWhile (fun e => e = "") with
  | [] => ""
  | e :: rest => Clean (String.intercalate "/" (e :: rest))

/-! ### content.go: `add` and `find` -/

/-- The heap with a content object stored at an address. -/
def heapSet (heap : Ptr → content) (p : Ptr) (c : content) : Ptr → content :=
  fun q => if q = p then c else heap q

/-- `contents.add(f)`, given which extensions some registered generator takes
(`getGenerator` panics when none does) and the file system `load` reads.  The
new object is allocated at the next free address and registered under the
source path of `f` before `load` runs; `add` returns the error of `load`. -/
def contents.add (L : Lib) (hasGenerator : String → Bool)
    (fs : String → Option (List UInt8)) (cs : contents) (f : file) :
    Except Abort (contents × Option String) :=
  let ext := Ext f.srcPath
  let cpath := fChangeExt f.dstPath ""
  let f : file := { f with dstPath := Join [cs.cfgRoot, cs.cfgPublicDir, f.dstPath] }
  let c : content := { f := f, cpath := cpath, metaEnd := 0, «meta» := [] }
  if !hasGenerator ext then .error .panic
  else
    let p := cs.next
    let cs : contents :=
      { cs with heap := heapSet cs.heap p c, next := p + 1, srcs := mapSet cs.srcs f.srcPath p }
    match load L fs c with
    | .error a => .error a
    | .ok r => .ok ({ cs with heap := heapSet cs.heap p r.c }, r.err)

/-- A sequence of `add` calls, run in order: the registry afterwards and the
errors returned, or the panic that ended the run. -/
def addAll (L : Lib) (hasGenerator : String → Bool) (fs : String → Option (List UInt8))
    (cs : contents) : List file → Except Abort (contents × List String)
  | [] => .ok (cs, [])
  | f :: rest =>
    match cs.add L hasGenerator fs f with
    | .error a => .error a
    | .ok (cs1, err) =>
      match addAll L hasGenerator fs cs1 rest with
      | .error a => .error a
      | .ok (cs2, errs) => .ok (cs2, err.toList ++ errs)

/-- The path that `find` looks up. -/
def findKey (currFile rel : String) : String := Join [currFile, "../", rel]

/-- The message built by `fmt.Errorf` in `find`. -/
def notFoundMsg (src rel : String) : String :=
  "content `" ++ src ++ "` from rel path `" ++ rel ++ "` not found"

/-- `contents.find(currFile, rel)`: the content pointer (`none` is `nil`) and
the error. -/
def contents.find (cs : contents) (currFile rel : String) : Option Ptr × Option String :=
  let src := findKey currFile rel
  match cs.srcs src with
  | none => (none, some (notFoundMsg src rel))
  | some c => (some c, none)

/-- Every entry of `srcs` points at an allocated object with that source
path. -/
def srcsSound (cs : contents) : Prop :=
  ∀ s p, cs.srcs s = some p → p < cs.next ∧ (cs.heap p).f.srcPath = s

/-- The test page `content/blog/post1.md`, as the content walk hands it to
`add`. -/
def post1 : file := { srcPath := "content/blog/post1.md", dstPath := "blog/post1.html" }

/-- A file system that holds `content/blog/post1.md` with the bytes the test
gives it. -/
def post1Fs : String → Option (List UInt8) := fun p =>
  if p = "content/blog/post1.md" then some (utf8 "---\ntitle: test\n---\n# post 1\n") else none

/-- The registry of a site rooted at `site`, after `init`. -/
def emptyRegistry : contents := (contents.blank "site" "public" (fun _ => content.zero)).init

/-! ### site_state.go: the build -/

/-- The steps of `build`. -/
inductive Phase where
  | load
  | gate
  | finalize
  | render
  | renderListPages
  | sweep
deriving DecidableEq, Repr

/-- The state of a build: the error sink `errs` (its accumulated text), the
bytes written to `logOut`, and everything else the phases read and write. -/
structure siteState (σ : Type) where
  site : σ
  errs : String
  logOut : String

/-- What `build` calls: the work of each phase as a step on the build state,
and the bytes that `fmt.Fprintf(w, format)` writes for a format with no
operands. -/
structure Phases (σ : Type) where
  loadAll : siteState σ → siteState σ
  loadFinished : siteState σ → siteState σ
  renderAll : siteState σ → siteState σ
  renderListPages : siteState σ → siteState σ
  removeUnused : siteState σ → siteState σ
  Fprintf : String → String

/-- `siteState.checkErrs`. -/
def checkErrs {σ : Type} (P : Phases σ) (ss : siteState σ) : Bool × siteState σ :=
  let errs := ss.errs
  if errs.utf8ByteSize = 0 then (true, ss)
  else (false, { ss with logOut := ss.logOut ++ P.Fprintf errs })

/-- `siteState.build`: the result `ok`, the state afterwards, and the steps
taken, in order. -/
def build {σ : Type} (P : Phases σ) (ss : siteState σ) : Bool × siteState σ × List Phase :=
  let ss := P.loadAll ss
  let g1 := checkErrs P ss
  if !g1.1 then (false, g1.2, [.load, .gate])
  else
    let ss := P.loadFinished g1.2
    let ss := P.renderAll ss
    let g2 := checkErrs P ss
    if !g2.1 then (false, g2.2, [.load, .gate, .finalize, .render, .gate])
    else
      let ss := P.renderListPages g2.2
      let g3 := checkErrs P ss
      if !g3.1 then
        (false, g3.2, [.load, .gate, .finalize, .render, .gate, .renderListPages, .gate])
      else
        let ss := P.removeUnused g3.2
        (true, ss,
          [.load, .gate, .finalize, .render, .gate, .renderListPages, .gate, .sweep])

/-- The order of the steps of a build that runs to the end. -/
def phaseOrder : List Phase :=
  [.load, .gate, .finalize, .render, .gate, .renderListPages, .gate, .sweep]

/-- The error sink holds no text. -/
def sinkEmpty {σ : Type} (ss : siteState σ) : Prop := ss.errs.utf8ByteSize = 0

instance {σ : Type} (ss : siteState σ) : Decidable (sinkEmpty ss) := by
  unfold sinkEmpty; infer_instance

/-- Phases for the examples, over a counter of the files written: the render
phase reports an error when the counter it finds is odd, and the sweep resets
the counter. -/
def demoPhases : Phases Nat :=
  { loadAll := fun ss => { ss with site := ss.site + 1 }
    loadFinished := fun ss => ss
    renderAll := fun ss =>
      if ss.site % 2 = 1 then { ss with errs := ss.errs ++ "render failed\n" } else ss
    renderListPages := fun ss => ss
    removeUnused := fun ss => { ss with site := 0 }
    Fprintf := fun s => s }

/-! ### acryliclib/content_gen_img.go: `scale` -/

/-- What `scale` does outside the generator, in the order done: a call of
`imaging.Decode` on an opened file, a call of `thumbnailImage` or `resizeImage`
(or the pass-through of a request without dimensions), a call of `saveImage`. -/
inductive ImgEvent where
  | decode (path : String)
  | transform (req : img)
  | encode (path : String)
deriving DecidableEq, Repr

/-- What `scale` takes from outside this file: the path that `claimStaticDest`
computes for a content item, a directory and an extension; `fDestChanged`; the
error of `os.Open` and of `fCreate` on a path (`none` is success); the bounds
`(Dx, Dy)` of the image that `imaging.Decode` reads from a path, or its error;
and the error of the encoder writing to a path. -/
structure ImgWorld where
  staticDest : content → String → String → String
  fDestChanged : String → String → Bool
  openErr : String → Option String
  decode : String → Except String (Int × Int)
  fCreateErr : String → Option String
  encodeErr : String → Option String

/-- The state `scale` works on: the registry, the map `gi.scaled` of the
generator (one map, shared by every copy of `gi`), the count kept by
`stats.addImg`, and the events so far. -/
structure ImgState where
  cs : contents
  scaled : String → Option Point
  imgs : Nat
  events : List ImgEvent

/-- Modelled from the spec: the method `content.claimStaticDest(dir, ext)`,
whose source is not in this file set; the spec has it claim, through the
registry, the destination path that encodes the transform signature.  Like
`content.claimDest` it computes the path and calls `contents.claimDest` with the
content item itself.  The result is the registry, `dstPath`, `alreadyClaimed`
and `err`. -/
def claimStaticDest (W : ImgWorld) (cs : contents) (c : Ptr) (dir ext : String) :
    contents × String × Bool × Option String :=
  let dst := W.staticDest (cs.heap c) dir ext
  ((cs.claimDest dst c).1, dst, (cs.claimDest dst c).2.1, (cs.claimDest dst c).2.2)

/-- `contentGenImg.saveImage` for an image of any size: the error of `fCreate`,
else the error of the encoder chosen by the extension of `dst`; the panic when
the extension has no encoder. -/
def saveImage (W : ImgWorld) (dst : String) : Except Abort (Option String) :=
  match W.fCreateErr dst with
  | some e => .ok (some e)
  | none =>
    if Ext dst ∈ [".bmp", ".gif", ".jpeg", ".jpg", ".png", ".tiff"] then .ok (W.encodeErr dst)
    else .error .panic

/-- The work of a `scale` call that owns the claim, lines 108-161, from after
the `defer` statement to the `return` or the panic: the state afterwards, the
results `w` and `h` as they stand at that point, and how the work ends, `some
err` for a return with `err` and `none` for a panic.  A panic comes from
`thumbnailImage` or `resizeImage`, with `w` and `h` still as requested, or from
`saveImage`, with `w` and `h` already set to the bounds. -/
def scaleWork (W : ImgWorld) (st : ImgState) (c : Ptr) (i : img) (dstPath : String) :
    ImgState × Int × Int × Option (Option String) :=
  let srcPath := (st.cs.heap c).f.srcPath
  if !W.fDestChanged srcPath dstPath then
    match W.openErr dstPath with
    | some e => (st, i.w, i.h, some (some e))
    | none =>
      let st : ImgState := { st with events := st.events ++ [.decode dstPath] }
      match W.decode dstPath with
      | .error e => (st, i.w, i.h, some (some e))
      | .ok bounds => (st, bounds.1, bounds.2, some none)
  else
    let st : ImgState := { st with imgs := st.imgs + 1 }
    match W.openErr srcPath with
    | some e => (st, i.w, i.h, some (some e))
    | none =>
      let st : ImgState := { st with events := st.events ++ [.decode srcPath] }
      match W.decode srcPath with
      | .error e => (st, i.w, i.h, some (some e))
      | .ok bounds =>
        let st : ImgState := { st with events := st.events ++ [.transform i] }
        match scaleSwitch bounds.1 bounds.2 i with
        | none => (st, i.w, i.h, none)
        | some size =>
          let st : ImgState := { st with events := st.events ++ [.encode dstPath] }
          match saveImage W dstPath with
          | .error _ => (st, size.1, size.2, none)
          | .ok err => (st, size.1, size.2, some err)

/-- Where one call of `scale` stands.  The calls of one generator run side by
side, and each goes from one of these points to the next in one step.
`start`: the call is made and nothing is done yet.
`waiting`: `claimStaticDest` returned `alreadyClaimed`; the call is in the loop
of lines 87-98, before a look at `gi.scaled[dstPath]`.
`working`: the call owns the claim, the store is deferred (line 102), and the
work of lines 108-161 is to come.
`storing`: the work has ended with the results `w` and `h` and with `out`
(`some err` for a return with `err`, `none` for a panic); the deferred function
is to run.
`returned`: the call has returned `(w, h, dstPath, err)`; `owner` records
whether it owned the claim.
`panicked`: the deferred function has run, and the panic goes on. -/
inductive Pc where
  | start (req : img)
  | waiting (req : img) (dstPath : String)
  | working (req : img) (dstPath : String)
  | storing (req : img) (dstPath : String) (w h : Int) (out : Option (Option String))
  | returned (owner : Bool) (req : img) (w h : Int) (dstPath : String) (err : Option String)
  | panicked (req : img) (dstPath : String) (w h : Int)
deriving DecidableEq, Repr

/-- One step of a call of `contentGenImg.scale(img)` for the generator of the
content item `c`.  A step is one access to what the calls share: the call of
`claimStaticDest` (the registry is locked for the length of `claimDest`), one
look at `gi.scaled[dstPath]`, the work (which reads and writes neither the
claims nor the map), one store to the map.  The lock `gi.mtx` plays no part:
`gi` is a value receiver, so each call locks a copy of its own.  A look that
finds nothing is followed by the sleep and leaves the call where it was; a call
that has returned or panicked takes no further step. -/
def scaleStep (W : ImgWorld) (c : Ptr) (st : ImgState) : Pc → ImgState × Pc
  | .start i =>
    let claim := claimStaticDest W st.cs c "img" (getNewExt i)
    let st : ImgState := { st with cs := claim.1 }
    let dstPath := claim.2.1
    let alreadyClaimed := claim.2.2.1
    let err := claim.2.2.2
    if err ≠ none then (st, .returned false i 0 0 dstPath err)
    else if alreadyClaimed then (st, .waiting i dstPath)
    else (st, .working i dstPath)
  | .waiting i dstPath =>
    match st.scaled dstPath with
    | some p => (st, .returned false i p.X p.Y dstPath none)
    | none => (st, .waiting i dstPath)
  | .working i dstPath =>
    ((scaleWork W st c i dstPath).1,
      .storing i dstPath (scaleWork W st c i dstPath).2.1 (scaleWork W st c i dstPath).2.2.1
        (scaleWork W st c i dstPath).2.2.2)
  | .storing i dstPath w h out =>
    let st : ImgState := { st with scaled := mapSet st.scaled dstPath { X := w, Y := h } }
    match out with
    | some err => (st, .returned true i w h dstPath err)
    | none => (st, .panicked i dstPath w h)
  | .returned owner i w h dstPath err => (st, .returned owner i w h dstPath err)
  | .panicked i dstPath w h => (st, .panicked i dstPath w h)

/-- The calls of `scale` on one generator, numbered, and the state they share.
A call that is made later than another is one that takes its first step
later. -/
structure ImgSys where
  st : ImgState
  pcs : Nat → Pc

/-- What happens next: the call numbered `k` takes a step, or someone calls
`claimDest` (another generator, for its own content item, or the page
renderer). -/
inductive ImgAct where
  | run (k : Nat)
  | claim (dst : String) (owner : Ptr)
deriving DecidableEq, Repr

/-- The calls with call `k` moved to `pc`. -/
def setPc (pcs : Nat → Pc) (k : Nat) (pc : Pc) : Nat → Pc :=
  fun j => if j = k then pc else pcs j

/-- One action on the calls of the generator of `c`. -/
def sysStep (W : ImgWorld) (c : Ptr) (s : ImgSys) : ImgAct → ImgSys
  | .run k =>
    { st := (scaleStep W c s.st (s.pcs k)).1
      pcs := setPc s.pcs k (scaleStep W c s.st (s.pcs k)).2 }
  | .claim dst p => { st := { s.st with cs := (s.st.cs.claimDest dst p).1 }, pcs := s.pcs }

/-- A schedule: the actions in the order they happen. -/
def sysRun (W : ImgWorld) (c : Ptr) : ImgSys → List ImgAct → ImgSys
  | s, [] => s
  | s, a :: rest => sysRun W c (sysStep W c s a) rest

/-- The generator as `getGenerator` makes it, with an empty map, over the
registry `cs`; the call numbered `k` will be `scale(reqs k)`. -/
def sysStart (cs : contents) (reqs : Nat → img) : ImgSys :=
  { st := { cs := cs, scaled := fun _ => none, imgs := 0, events := [] }
    pcs := fun k => .start (reqs k) }

/-- The destination a call owns, once it owns one. -/
def Pc.owns : Pc → Option String
  | .working _ d => some d
  | .storing _ d _ _ _ => some d
  | .returned true _ _ _ d _ => some d
  | .panicked _ d _ _ => some d
  | _ => none

/-- The destination of an owning call whose store is still to come. -/
def Pc.pending : Pc → Option String
  | .working _ d => some d
  | .storing _ d _ _ _ => some d
  | _ => none

/-- The destination and the size that an owning call has stored. -/
def Pc.result : Pc → Option (String × Point)
  | .returned true _ w h d _ => some (d, { X := w, Y := h })
  | .panicked _ d w h => some (d, { X := w, Y := h })
  | _ => none

/-- The request and the destination of a call that has made its claim. -/
def Pc.sig : Pc → Option (img × String)
  | .start _ => none
  | .waiting i d => some (i, d)
  | .working i d => some (i, d)
  | .storing i d _ _ _ => some (i, d)
  | .returned _ i _ _ d _ => some (i, d)
  | .panicked i d _ _ => some (i, d)

/-- What holds of the calls of the generator of `c` at every point of every
schedule; `H` is the heap of the registry at the start. -/
structure SysInv (W : ImgWorld) (c : Ptr) (H : Ptr → content) (s : ImgSys) : Prop where
  heap : s.st.cs.heap = H
  dest : ∀ k i d, (s.pcs k).sig = some (i, d) → d = W.staticDest (H c) "img" (getNewExt i)
  owned : ∀ k d, (s.pcs k).owns = some d → s.st.cs.dsts d = some c
  unique : ∀ k1 k2 d, (s.pcs k1).owns = some d → (s.pcs k2).owns = some d → k1 = k2
  pending : ∀ k d, (s.pcs k).pending = some d → s.st.scaled d = none
  recorded : ∀ k d p, (s.pcs k).result = some (d, p) → s.st.scaled d = some p
  source : ∀ d p, s.st.scaled d = some p → ∃ k, (s.pcs k).result = some (d, p)
  replayed : ∀ j i w h d, s.pcs j = .returned false i w h d none →
    s.st.scaled d = some { X := w, Y := h }

/-- An outside world for the examples: every image is stored under
`public/static`, every destination is stale, every file opens, the source
decodes to 200x100, and every write succeeds. -/
def demoWorld : ImgWorld :=
  { staticDest := fun c dir ext => "public/static/" ++ dir ++ "/" ++ fChangeExt c.f.dstPath ext
    fDestChanged := fun _ _ => true
    openErr := fun _ => none
    decode := fun _ => .ok (200, 100)
    fCreateErr := fun _ => none
    encodeErr := fun _ => none }

/-- A registry with one image `layouts/blog/img.png`, at address 0. -/
def imgRegistry : contents :=
  (contents.blank "site" "public" (fun _ =>
    { content.zero with f := { srcPath := "layouts/blog/img.png",
                               dstPath := "layout/blog/img.png" } })).init

/-- Two calls for a centred 100x100 thumbnail of the image: call 0 names it
`img.png`, every other call `../img.png`; the signature is the same. -/
def demoReqs : Nat → img := fun k =>
  if k = 0 then ⟨"img.png", ".png", 100, 100, cropCentered⟩
  else ⟨"../img.png", ".png", 100, 100, cropCentered⟩

/-- A schedule in which call 1 arrives while call 0 is at work: call 0 claims,
call 1 claims and looks at the map, call 0 does the work, another item claims a
path of its own, call 1 looks again, call 0 stores and returns. -/
def demoActs : List ImgAct :=
  [.run 0, .run 1, .run 1, .run 0, .claim "other.png" 7, .run 1, .run 0]

/-! ### fmt: a format with no operands -/

/-- The flags after a `%`, skipped. -/
def skipFlags : List Char → List Char
  | [] => []
  | ch :: cs =>
    if ch = '#' ∨ ch = '0' ∨ ch = '+' ∨ ch = '-' ∨ ch = ' ' then skipFlags cs else ch :: cs

/-- The digit scan of `parsenum`: whether a number was read, and what follows
it.  A number that has passed a million makes the scan give up and jump to the
end of the format. -/
def parsenumFrom (num : Nat) (isnum : Bool) : List Char → Bool × List Char
  | [] => (isnum, [])
  | ch :: cs =>
    if ch.isDigit then
      if num > 1000000 then (false, [])
      else parsenumFrom (num * 10 + (ch.toNat - 48)) true cs
    else (isnum, ch :: cs)

/-- `parsenum`. -/
def parsenum (s : List Char) : Bool × List Char := parsenumFrom 0 false s

/-- `argNumber` when there are no operands: what follows the index, whether an
index `[n]` was read, and whether a `[` was seen at all (which, there being no
operand to select, makes the directive a bad index). -/
def argNumber (s : List Char) : List Char × Bool × Bool :=
  match s with
  | '[' :: t =>
    if s.length < 3 then (t, false, true)
    else if ']' ∈ t then
      let inside := t.takeWhile (fun ch => ch ≠ ']')
      let after := (t.dropWhile (fun ch => ch ≠ ']')).drop 1
      (after, (parsenum inside).1 && (parsenum inside).2.isEmpty, true)
    else (t, false, true)
  | _ => (s, false, false)

/-- One directive of a format with no operands, from just after its `%`: what
is written for it, and the rest of the format.  Flags, width and precision are
read and dropped; `%%` writes a percent sign; a width or precision `*` has no
operand to take; a verb has no operand to print; a format that ends inside the
directive has no verb. -/
def fmtDirective (s : List Char) : String × List Char :=
  let s := skipFlags s
  let a1 := argNumber s
  let wid : String × List Char × Bool × Bool :=
    match a1.1 with
    | '*' :: t => ("%!(BADWIDTH)", t, false, false)
    | _ => ("", (parsenum a1.1).2, a1.2.1, a1.2.1 && (parsenum a1.1).1)
  let prec : String × List Char × Bool × Bool :=
    match wid.2.1 with
    | '.' :: t =>
      let a2 := argNumber t
      match a2.1 with
      | '*' :: u => (wid.1 ++ "%!(BADPREC)", u, false, wid.2.2.1 || a2.2.2)
      | _ => (wid.1, (parsenum a2.1).2, a2.2.1, wid.2.2.1 || a2.2.2)
    | _ => (wid.1, wid.2.1, wid.2.2.1, false)
  let a3 : List Char × Bool := if prec.2.2.1 then (prec.2.1, false) else
    ((argNumber prec.2.1).1, (argNumber prec.2.1).2.2)
  let bad := a1.2.2 || wid.2.2.2 || prec.2.2.2 || a3.2
  match a3.1 with
  | [] => (prec.1 ++ "%!(NOVERB)", [])
  | verb :: rest =>
    if verb = '%' then (prec.1 ++ "%", rest)
    else if bad then (prec.1 ++ "%!" ++ String.singleton verb ++ "(BADINDEX)", rest)
    else (prec.1 ++ "%!" ++ String.singleton verb ++ "(MISSING)", rest)

/-- The loop of `doPrintf` for a format with no operands: the text up to the
next `%` is copied, then one directive is handled; one directive per unit of
fuel. -/
def fmtLoop : Nat → List Char → String
  | 0, _ => ""
  | fuel + 1, s =>
    match s.dropWhile (fun ch => ch ≠ '%') with
    | [] => String.mk s
    | _ :: t =>
      String.mk (s.takeWhile (fun ch => ch ≠ '%')) ++ (fmtDirective t).1
        ++ fmtLoop fuel (fmtDirective t).2

/-- The bytes that `fmt.Fprintf(w, format)` writes when it is given no
operands, as the `fmt` package of Go formats them. -/
def FprintfNoOperands (format : String) : String := fmtLoop (format.length + 1) format.data

/-- Phases for the examples whose log output is written by `fmt.Fprintf`. -/
def goPhases : Phases Nat := { demoPhases with Fprintf := FprintfNoOperands }

/-! ## Theorems -/

/-! ### C1: the conflict error -/

theorem names_conflictMsg_dst (dst ownerSrc : String) : names (conflictMsg dst ownerSrc) dst := by
  unfold names conflictMsg
  refine ⟨"content conflict: destination file `".data,
    "` already generated by `".data ++ ownerSrc.data ++ "`".data, ?_⟩
  simp only [String.data_append, List.append_assoc]

theorem names_conflictMsg_owner (dst ownerSrc : String) :
    names (conflictMsg dst ownerSrc) ownerSrc := by
  unfold names conflictMsg
  refine ⟨"content conflict: destination file `".data ++ dst.data ++
    "` already generated by `".data, "`".data, ?_⟩
  simp only [String.data_append, List.append_assoc]

/-- The error of a conflicting claim, computed. -/
theorem claimDest_of_other (cs : contents) (dst : String) (a b : Ptr)
    (hab : a ≠ b) (ha : cs.dsts dst = some a) :
    cs.claimDest dst b = (cs, false, some (conflictMsg dst (cs.heap a).f.srcPath)) := by
  unfold contents.claimDest
  rw [ha]
  simp [hab]

theorem claimDest_of_self (cs : contents) (dst : String) (c : Ptr)
    (hc : cs.dsts dst = some c) : cs.claimDest dst c = (cs, true, none) := by
  unfold contents.claimDest
  rw [hc]
  simp

theorem claimDest_of_free (cs : contents) (dst : String) (c : Ptr)
    (hc : cs.dsts dst = none) :
    cs.claimDest dst c = ({ cs with dsts := mapSet cs.dsts dst c }, false, none) := by
  unfold contents.claimDest
  rw [hc]

/-- No call changes or removes an entry of the table. -/
theorem claimDest_keeps (cs : contents) (dst : String) (c : Ptr) (d : String) (p : Ptr)
    (hp : cs.dsts d = some p) : (cs.claimDest dst c).1.dsts d = some p := by
  unfold contents.claimDest
  cases h : cs.dsts dst with
  | none =>
    have hne : d ≠ dst := by
      intro e
      rw [e, h] at hp
      cases hp
    simp [mapSet, hne, hp]
  | some co =>
    by_cases e : co = c
    · simp [e, hp]
    · simp [e, hp]

theorem claimAll_keeps (calls : List (String × Ptr)) (cs : contents) (d : String) (p : Ptr)
    (hp : cs.dsts d = some p) : (claimAll cs calls).dsts d = some p := by
  induction calls generalizing cs with
  | nil => simpa [claimAll] using hp
  | cons call rest ih =>
    obtain ⟨dst, c⟩ := call
    simp only [claimAll]
    exact ih _ (claimDest_keeps cs dst c d p hp)

/-- After a successful claim the path belongs to the claimant. -/
theorem claimDest_owner_of_ok (cs : contents) (dst : String) (c : Ptr)
    (hok : (cs.claimDest dst c).2.2 = none) : (cs.claimDest dst c).1.dsts dst = some c := by
  unfold contents.claimDest at hok ⊢
  cases h : cs.dsts dst with
  | none => simp [mapSet]
  | some co =>
    rw [h] at hok
    by_cases e : co = c
    · simp [e, h]
    · simp [e] at hok

theorem claimAll_free (calls : List (String × Ptr)) (cs : contents) (d : String)
    (hd : cs.dsts d = none) : (claimAll cs calls).dsts d = firstClaimant d calls := by
  induction calls generalizing cs with
  | nil => simpa [claimAll, firstClaimant] using hd
  | cons call rest ih =>
    obtain ⟨dst, c⟩ := call
    simp only [claimAll, firstClaimant]
    by_cases e : dst = d
    · subst e
      simp only [if_true]
      apply claimAll_keeps
      rw [claimDest_of_free cs dst c hd]
      simp [mapSet]
    · simp only [e, if_false]
      apply ih
      unfold contents.claimDest
      cases h : cs.dsts dst with
      | none =>
        have e2 : d ≠ dst := fun x => e x.symm
        simp [mapSet, e2, hd]
      | some co =>
        by_cases e3 : co = c
        · simp [e3, hd]
        · simp [e3, hd]

/-- C1 (as stated, refuted): `a.md` owns `out.html` and `b.md` claims it.
The conflict error is the text shown; it names the owner `a.md` and does not
name the requesting source `b.md`. -/
theorem C1_conflict_omits_requester :
    ((demoContents.claimDest "out.html" 0).1.claimDest "out.html" 1).2 =
        (false, some "content conflict: destination file `out.html` already generated by `a.md`")
      ∧ (demoContents.heap 1).f.srcPath = "b.md"
      ∧ ¬ names "content conflict: destination file `out.html` already generated by `a.md`"
            "b.md" := by
  refine ⟨by decide, by decide, ?_⟩
  set_option maxRecDepth 100000 in decide

/-- C1 (amended): when a content item `a` owns the path `dst` and a different
item `b` claims it, `claimDest` returns a non-nil error (with
`alreadyClaimed = false` and the registry as it was) whose message is
`conflictMsg dst a.f.srcPath`; the message names the destination path and the
owner's source path; and it is built from those two alone: every item other
than `a` that makes the request gets the same error. -/
theorem C1_conflict_names_dst_and_owner (cs : contents) (dst : String) (a b : Ptr)
    (hab : a ≠ b) (ha : cs.dsts dst = some a) :
    cs.claimDest dst b = (cs, false, some (conflictMsg dst (cs.heap a).f.srcPath))
      ∧ names (conflictMsg dst (cs.heap a).f.srcPath) dst
      ∧ names (conflictMsg dst (cs.heap a).f.srcPath) (cs.heap a).f.srcPath
      ∧ ∀ b2 : Ptr, a ≠ b2 → (cs.claimDest dst b2).2.2 = (cs.claimDest dst b).2.2 :=
  ⟨claimDest_of_other cs dst a b hab ha, names_conflictMsg_dst _ _, names_conflictMsg_owner _ _,
    fun b2 h2 => by
      rw [claimDest_of_other cs dst a b2 h2 ha, claimDest_of_other cs dst a b hab ha]⟩

/-- C1 (amended), at `a.md` owning `out.html` and `b.md` claiming it. -/
theorem C1_conflict_names_dst_and_owner_witness :
    (0 : Ptr) ≠ 1 ∧ (demoContents.claimDest "out.html" 0).1.dsts "out.html" = some 0
      ∧ ((demoContents.claimDest "out.html" 0).1.claimDest "out.html" 1).2.2
          = some (conflictMsg "out.html" "a.md") :=
  ⟨by decide, by decide,
    by
      rw [(C1_conflict_names_dst_and_owner (demoContents.claimDest "out.html" 0).1
        "out.html" 0 1 (by decide) (by decide)).1]
      rfl⟩

/-! ### C2: re-claiming is idempotent -/

/-- C2: the first claim of an unclaimed path returns `alreadyClaimed = false`
with a nil error; and once `claimDest(dst, c)` has returned a nil error, then
after any further sequence of `claimDest` calls whatsoever, `claimDest(dst, c)`
returns `alreadyClaimed = true` with a nil error and leaves the registry
exactly as it was. -/
theorem C2_reclaim_idempotent (cs : contents) (dst : String) (c : Ptr)
    (later : List (String × Ptr)) :
    (cs.dsts dst = none → (cs.claimDest dst c).2 = (false, none))
      ∧ ((cs.claimDest dst c).2.2 = none →
          (claimAll (cs.claimDest dst c).1 later).claimDest dst c
            = (claimAll (cs.claimDest dst c).1 later, true, none)) := by
  constructor
  · intro h
    rw [claimDest_of_free cs dst c h]
  · intro hok
    apply claimDest_of_self
    exact claimAll_keeps later _ dst c (claimDest_owner_of_ok cs dst c hok)

/-- C2 at the first claim of `out.html` by `a.md`, followed by a rejected claim
by `b.md`, a claim of another path, and a repeat claim by `a.md`. -/
theorem C2_reclaim_idempotent_witness :
    demoContents.dsts "out.html" = none
      ∧ (demoContents.claimDest "out.html" 0).2 = (false, none)
      ∧ ((claimAll (demoContents.claimDest "out.html" 0).1
            [("out.html", 1), ("b.html", 1), ("out.html", 0)]).claimDest "out.html" 0).2
          = (true, none) :=
  ⟨by decide,
    (C2_reclaim_idempotent demoContents "out.html" 0 []).1 (by decide),
    by
      rw [(C2_reclaim_idempotent demoContents "out.html" 0
        [("out.html", 1), ("b.html", 1), ("out.html", 0)]).2 (by decide)]⟩

/-! ### C3: one owner per destination, the first claimant -/

/-- C3: after any sequence of `claimDest` calls on the empty table made by
`init`, every destination path is owned by the first item of the sequence that
claimed it (and is unowned when no call named it); a further call never changes
or removes an entry; and a call that returns an error leaves the registry
unchanged. -/
theorem C3_first_claimant_owns (cs0 : contents) (calls : List (String × Ptr))
    (dst : String) (c : Ptr) :
    (∀ d, (claimAll cs0.init calls).dsts d = firstClaimant d calls)
      ∧ (∀ d p, (claimAll cs0.init calls).dsts d = some p →
          ((claimAll cs0.init calls).claimDest dst c).1.dsts d = some p)
      ∧ (((claimAll cs0.init calls).claimDest dst c).2.2 ≠ none →
          ((claimAll cs0.init calls).claimDest dst c).1 = claimAll cs0.init calls) := by
  refine ⟨fun d => claimAll_free calls _ d rfl, fun d p hp => claimDest_keeps _ dst c d p hp, ?_⟩
  intro herr
  unfold contents.claimDest at herr ⊢
  cases h : (claimAll cs0.init calls).dsts dst with
  | none => simp [h] at herr
  | some co =>
    by_cases e : co = c
    · simp [e]
    · simp [e]

/-- C3 at `a.md` then `b.md` claiming `out.html`: the table keeps `a.md`, and
the rejected third call leaves the registry as it was. -/
theorem C3_first_claimant_owns_witness :
    (claimAll demoContents.init [("out.html", 0), ("out.html", 1)]).dsts "out.html" = some 0
      ∧ ((claimAll demoContents.init [("out.html", 0), ("out.html", 1)]).claimDest
            "out.html" 1).1 = claimAll demoContents.init [("out.html", 0), ("out.html", 1)] :=
  ⟨by
      rw [(C3_first_claimant_owns demoContents [("out.html", 0), ("out.html", 1)]
        "out.html" 1).1]
      decide,
    (C3_first_claimant_owns demoContents [("out.html", 0), ("out.html", 1)] "out.html" 1).2.2
      (by decide)⟩

/-! ### Go `int` arithmetic: lemmas -/

theorem wrap64_of_isInt64 (x : Int) (h : isInt64 x) : wrap64 x = x := by
  unfold isInt64 at h
  unfold wrap64
  omega

theorem isInt64_wrap64 (x : Int) : isInt64 (wrap64 x) := by
  unfold isInt64 wrap64
  omega

theorem tdiv_two (x : Int) : Int.tdiv x 2 = if 0 ≤ x then x / 2 else -((-x) / 2) := by
  split
  · rename_i h
    exact Int.tdiv_eq_ediv h (by decide)
  · rename_i h
    have h2 : 0 ≤ -x := by omega
    have h3 := Int.tdiv_eq_ediv (b := 2) h2 (by decide)
    rw [Int.neg_tdiv] at h3
    omega

theorem goDiv_of_pos (a b : Int) (ha : 0 ≤ a) (ha2 : a < 9223372036854775808) (hb : 0 < b) :
    goDiv a b = some (a / b) := by
  unfold goDiv
  have hb0 : b ≠ 0 := by omega
  rw [if_neg hb0, Int.tdiv_eq_ediv ha (by omega)]
  have h1 : 0 ≤ a / b := Int.ediv_nonneg ha (by omega)
  have h2 : a / b ≤ a := Int.ediv_le_self b ha
  rw [wrap64_of_isInt64]
  unfold isInt64
  omega

theorem goDiv_isInt64 (a b q : Int) (h : goDiv a b = some q) : isInt64 q := by
  unfold goDiv at h
  split at h
  · cases h
  · cases h
    exact isInt64_wrap64 _

theorem goMul_of_small (a b : Int) (h0 : 0 ≤ a * b) (h1 : a * b < 9223372036854775808) :
    goMul a b = a * b := by
  unfold goMul
  apply wrap64_of_isInt64
  unfold isInt64
  omega

/-! ### C4: the transform signature -/

/-- C4: for every width, height, extension and crop mode among none, left and
centered, `getNewExt` is the decimal width, `x`, the decimal height (present iff
`w != 0 || h != 0`), then `.cl` for left or `.cc` for centered (nothing for
none), then the original extension. -/
theorem C4_getNewExt_signature (i : img)
    (hc : i.crop = cropNone ∨ i.crop = cropLeft ∨ i.crop = cropCentered) :
    getNewExt i =
      (if i.w ≠ 0 ∨ i.h ≠ 0 then fmtD i.w ++ "x" ++ fmtD i.h else "")
        ++ (if i.crop = cropLeft then ".cl" else if i.crop = cropCentered then ".cc" else "")
        ++ i.ext := by
  have e1 : ".c" ++ fmtC0 (imgCrop.String cropLeft) = ".cl" := by decide
  have e2 : ".c" ++ fmtC0 (imgCrop.String cropCentered) = ".cc" := by decide
  have n1 : cropLeft ≠ cropNone := by decide
  have n2 : cropCentered ≠ cropNone := by decide
  have n3 : cropNone ≠ cropLeft := by decide
  have n4 : cropNone ≠ cropCentered := by decide
  have n5 : cropCentered ≠ cropLeft := by decide
  unfold getNewExt
  rcases hc with h | h | h
  · rw [h]
    by_cases hz : i.w ≠ 0 ∨ i.h ≠ 0
    · simp [hz, n3, n4]
    · simp [hz, n3, n4]
  · rw [h]
    by_cases hz : i.w ≠ 0 ∨ i.h ≠ 0
    · simp [hz, e1, n1]
    · simp [hz, e1, n1]
  · rw [h]
    by_cases hz : i.w ≠ 0 ∨ i.h ≠ 0
    · simp [hz, e2, n2, n5]
    · simp [hz, e2, n2, n5]

/-- C4 at a 100 by 50 centered crop of a `.png`, whose signature is
`100x50.cc.png`. -/
theorem C4_getNewExt_signature_witness :
    getNewExt ⟨"a.png", ".png", 100, 50, cropCentered⟩ = "100x50.cc.png" := by
  rw [C4_getNewExt_signature ⟨"a.png", ".png", 100, 50, cropCentered⟩ (by decide)]
  decide

/-! ### C5: the crop window -/

theorem thumbnailScale_isInt64 (srcW srcH : Int) (i : img) (sw sh : Int)
    (hsw : isInt64 srcW) (hsh : isInt64 srcH) (hw : isInt64 i.w) (hh : isInt64 i.h)
    (h : thumbnailScale srcW srcH i = some (sw, sh)) : isInt64 sw ∧ isInt64 sh := by
  have one : isInt64 1 := by decide
  have clamp : ∀ x, isInt64 x → isInt64 (if x = 0 then 1 else x) := by
    intro x hx
    split
    · exact one
    · exact hx
  have step2 : ∀ a b : Int, isInt64 a → isInt64 b →
      (if b < i.h then
          (goDiv (goMul a i.h) b).bind fun scaleW =>
            (some (scaleW, i.h)).bind fun y =>
              some (if y.1 = 0 then 1 else y.1, if y.2 = 0 then 1 else y.2)
        else (some (a, b)).bind fun y =>
              some (if y.1 = 0 then 1 else y.1, if y.2 = 0 then 1 else y.2)) = some (sw, sh) →
      isInt64 sw ∧ isInt64 sh := by
    intro a b ha hb hs
    by_cases c2 : b < i.h
    · simp only [c2, if_true, Option.bind_eq_some, Option.some_bind, Option.some.injEq,
        Prod.mk.injEq] at hs
      obtain ⟨q, hq, e1, e2⟩ := hs
      have hqr := goDiv_isInt64 _ _ _ hq
      rw [← e1, ← e2]
      exact ⟨clamp _ hqr, clamp _ hh⟩
    · simp only [c2, if_false, Option.some_bind, Option.some.injEq, Prod.mk.injEq] at hs
      obtain ⟨e1, e2⟩ := hs
      rw [← e1, ← e2]
      exact ⟨clamp _ ha, clamp _ hb⟩
  unfold thumbnailScale at h
  simp only [Option.bind_eq_bind, Option.pure_def] at h
  by_cases c1 : srcW < i.w
  · simp only [c1, if_true, Option.bind_eq_some] at h
    obtain ⟨q, hq, p, hp, h⟩ := h
    simp only [Option.some.injEq] at hp
    subst hp
    exact step2 _ _ hw (goDiv_isInt64 _ _ _ hq) h
  · simp only [c1, if_false, Option.some_bind] at h
    exact step2 _ _ hsw hsh h

theorem thumbnailImage_eq_some (srcW srcH : Int) (i : img) (t : Thumbnail)
    (h : thumbnailImage srcW srcH i = some t) :
    thumbnailScale srcW srcH i = some (t.scaleW, t.scaleH)
      ∧ thumbnailCrop t.scaleW t.scaleH i = some t.crop := by
  unfold thumbnailImage at h
  simp only [Option.bind_eq_bind, Option.pure_def, Option.bind_eq_some] at h
  obtain ⟨⟨a, b⟩, h1, c, h2, h3⟩ := h
  simp only [Option.some.injEq] at h3
  subst h3
  exact ⟨h1, h2⟩

theorem thumbnailCrop_left (sw sh : Int) (i : img) (hw : isInt64 i.w) (hh : isInt64 i.h)
    (c : Rectangle) (hc : i.crop = cropLeft) (h : thumbnailCrop sw sh i = some c) :
    c.Min = ⟨0, 0⟩ ∧ c.Dx = i.w ∧ c.Dy = i.h := by
  unfold thumbnailCrop at h
  simp only [hc, if_true, Option.some.injEq] at h
  subst h
  unfold isInt64 at hw hh
  refine ⟨rfl, ?_, ?_⟩
  · simp only [Rectangle.Dx, goSub, wrap64]
    omega
  · simp only [Rectangle.Dy, goSub, wrap64]
    omega

theorem thumbnailCrop_centered (sw sh : Int) (i : img)
    (hsw : isInt64 sw) (hsh : isInt64 sh) (hw : isInt64 i.w) (hh : isInt64 i.h)
    (c : Rectangle) (hc : i.crop = cropCentered) (h : thumbnailCrop sw sh i = some c) :
    c.Min = ⟨Int.tdiv sw 2 - Int.tdiv i.w 2, Int.tdiv sh 2 - Int.tdiv i.h 2⟩
      ∧ c.Dx = i.w ∧ c.Dy = i.h := by
  have n : cropCentered ≠ cropLeft := by decide
  unfold thumbnailCrop at h
  simp only [hc, n, if_true, if_false, Option.some.injEq] at h
  subst h
  unfold isInt64 at hsw hsh hw hh
  have t1 := tdiv_two sw
  have t2 := tdiv_two sh
  have t3 := tdiv_two i.w
  have t4 := tdiv_two i.h
  refine ⟨?_, ?_, ?_⟩
  · simp only [goSub, wrap64, Point.mk.injEq]
    constructor
    · split at t1 <;> split at t3 <;> omega
    · split at t2 <;> split at t4 <;> omega
  · simp only [Rectangle.Dx, goSub, goAdd, wrap64]
    omega
  · simp only [Rectangle.Dy, goSub, goAdd, wrap64]
    omega

/-- For a non-empty source, a crop mode of left or centered, and a request
whose first product `srcH * w` fits an `int`, `thumbnailImage` returns: no
division by zero occurs. -/
theorem thumbnailImage_isSome (srcW srcH : Int) (i : img)
    (hW : 1 ≤ srcW) (hH : 1 ≤ srcH) (hp : srcH * i.w < 9223372036854775808)
    (hc : i.crop = cropLeft ∨ i.crop = cropCentered) :
    (thumbnailImage srcW srcH i).isSome = true := by
  have hcrop : ∀ a b, ∃ c, thumbnailCrop a b i = some c := by
    intro a b
    have n : cropCentered ≠ cropLeft := by decide
    unfold thumbnailCrop
    rcases hc with h | h
    · simp [h]
    · simp [h, n]
  have hscale : ∃ p, thumbnailScale srcW srcH i = some p := by
    unfold thumbnailScale
    simp only [Option.bind_eq_bind, Option.pure_def]
    have hdiv : ∀ a b : Int, b ≠ 0 → ∃ q, goDiv a b = some q := by
      intro a b hb
      exact ⟨_, by unfold goDiv; rw [if_neg hb]⟩
    by_cases c1 : srcW < i.w
    · have hw0 : 0 ≤ i.w := by omega
      have hP0 : 0 ≤ srcH * i.w := Int.mul_nonneg (by omega) hw0
      have hge : srcH * srcW ≤ srcH * i.w := Int.mul_le_mul_of_nonneg_left (by omega) (by omega)
      have hq : srcH ≤ srcH * i.w / srcW := Int.le_ediv_of_mul_le (by omega) hge
      rw [if_pos c1, goMul_of_small _ _ hP0 hp, goDiv_of_pos _ _ hP0 hp (by omega)]
      simp only [Option.some_bind]
      by_cases c2 : srcH * i.w / srcW < i.h
      · obtain ⟨q, hq2⟩ := hdiv (goMul i.w i.h) (srcH * i.w / srcW) (by omega)
        simp [c2, hq2]
      · simp [c2]
    · rw [if_neg c1]
      simp only [Option.some_bind]
      by_cases c2 : srcH < i.h
      · obtain ⟨q, hq2⟩ := hdiv (goMul srcW i.h) srcH (by omega)
        simp [c2, hq2]
      · simp [c2]
  obtain ⟨⟨a, b⟩, hp2⟩ := hscale
  obtain ⟨c, hc2⟩ := hcrop a b
  unfold thumbnailImage
  simp [hp2, hc2]

/-- C5: whenever `thumbnailImage` returns for a request with crop = left, the
crop window has origin (0, 0) and size (w, h); with crop = centered it has
origin (scaledW/2 - w/2, scaledH/2 - h/2), the divisions being Go's truncated
integer division, and size (w, h).  It does return for every non-empty source
and every left or centered request whose product `srcH * w` fits an `int`.  For
a 200x100 source requested at 100x100 centered, the scaled size stays 200x100
and the window has origin (50, 0) and size 100x100. -/
theorem C5_crop_window (srcW srcH : Int) (i : img) :
    (∀ t, isInt64 srcW → isInt64 srcH → isInt64 i.w → isInt64 i.h →
        thumbnailImage srcW srcH i = some t →
        (i.crop = cropLeft → t.crop.Min = ⟨0, 0⟩ ∧ t.crop.Dx = i.w ∧ t.crop.Dy = i.h)
          ∧ (i.crop = cropCentered →
              t.crop.Min = ⟨Int.tdiv t.scaleW 2 - Int.tdiv i.w 2,
                            Int.tdiv t.scaleH 2 - Int.tdiv i.h 2⟩
                ∧ t.crop.Dx = i.w ∧ t.crop.Dy = i.h))
      ∧ (1 ≤ srcW → 1 ≤ srcH → srcH * i.w < 9223372036854775808 →
          (i.crop = cropLeft ∨ i.crop = cropCentered) →
          (thumbnailImage srcW srcH i).isSome = true)
      ∧ (∃ t, thumbnailImage 200 100 { i with w := 100, h := 100, crop := cropCentered } = some t
          ∧ t.scaleW = 200 ∧ t.scaleH = 100
          ∧ t.crop = ⟨⟨50, 0⟩, ⟨150, 100⟩⟩ ∧ t.crop.Dx = 100 ∧ t.crop.Dy = 100) := by
  refine ⟨?_, fun hW hH hp hc => thumbnailImage_isSome srcW srcH i hW hH hp hc, ?_⟩
  · intro t hsw hsh hw hh ht
    obtain ⟨hs, hcr⟩ := thumbnailImage_eq_some srcW srcH i t ht
    obtain ⟨r1, r2⟩ := thumbnailScale_isInt64 srcW srcH i _ _ hsw hsh hw hh hs
    exact ⟨fun hc => thumbnailCrop_left _ _ i hw hh _ hc hcr,
      fun hc => thumbnailCrop_centered _ _ i r1 r2 hw hh _ hc hcr⟩
  · exact ⟨⟨200, 100, ⟨⟨50, 0⟩, ⟨150, 100⟩⟩, (100, 100)⟩, rfl, rfl, rfl, rfl,
      by decide, by decide⟩

/-- C5 at a 3x7 source requested at 100x100 centered: the cover-scaled size is
100x233 and the window has origin (0, 66) and size 100x100. -/
theorem C5_crop_window_witness :
    thumbnailImage 3 7 ⟨"a.png", ".png", 100, 100, cropCentered⟩
        = some ⟨100, 233, ⟨⟨0, 66⟩, ⟨100, 166⟩⟩, (100, 100)⟩
      ∧ (⟨⟨0, 66⟩, ⟨100, 166⟩⟩ : Rectangle).Min
          = ⟨Int.tdiv 100 2 - Int.tdiv 100 2, Int.tdiv 233 2 - Int.tdiv 100 2⟩
      ∧ (⟨⟨0, 66⟩, ⟨100, 166⟩⟩ : Rectangle).Dx = 100
      ∧ (thumbnailImage 3 7 ⟨"a.png", ".png", 100, 100, cropCentered⟩).isSome = true :=
  ⟨by decide,
    (((C5_crop_window 3 7 ⟨"a.png", ".png", 100, 100, cropCentered⟩).1
      ⟨100, 233, ⟨⟨0, 66⟩, ⟨100, 166⟩⟩, (100, 100)⟩
      (by decide) (by decide) (by decide) (by decide) (by decide)).2 rfl).1,
    (((C5_crop_window 3 7 ⟨"a.png", ".png", 100, 100, cropCentered⟩).1
      ⟨100, 233, ⟨⟨0, 66⟩, ⟨100, 166⟩⟩, (100, 100)⟩
      (by decide) (by decide) (by decide) (by decide) (by decide)).2 rfl).2.1,
    (C5_crop_window 3 7 ⟨"a.png", ".png", 100, 100, cropCentered⟩).2.1
      (by decide) (by decide) (by decide) (Or.inr rfl)⟩

/-! ### C6: a request that gives one dimension -/

theorem imagingResize_pos (srcW srcH w h : Int) (hW : 1 ≤ srcW) (hH : 1 ≤ srcH)
    (hw : 1 ≤ w) (hh : 1 ≤ h) : imagingResize srcW srcH w h = (w, h) := by
  unfold imagingResize
  have a1 : ¬ (w < 0 ∨ h < 0) := by omega
  have a2 : ¬ (w = 0 ∧ h = 0) := by omega
  have a3 : ¬ (srcW ≤ 0 ∨ srcH ≤ 0) := by omega
  have a4 : w ≠ 0 := by omega
  have a5 : h ≠ 0 := by omega
  simp [a1, a2, a3, a4, a5]

/-- The width-only request: `resizeImage` on `w > 0`, `h = 0`. -/
theorem resizeImage_width_only (srcW srcH : Int) (i : img)
    (hW : 1 ≤ srcW) (hH : 1 ≤ srcH) (hw : 0 < i.w) (hh : i.h = 0)
    (hp : srcH * i.w < 9223372036854775808) :
    resizeImage srcW srcH i = some (i.w, max 1 (srcH * i.w / srcW)) := by
  have hP0 : 0 ≤ srcH * i.w := Int.mul_nonneg (by omega) (by omega)
  have hq0 : 0 ≤ srcH * i.w / srcW := Int.ediv_nonneg hP0 (by omega)
  unfold resizeImage
  simp only [Option.bind_eq_bind, Option.pure_def]
  have c1 : i.h = 0 ∨ (srcW > i.w ∧ i.w ≠ 0) ∨ (srcW < i.w ∧ srcH < i.h) := Or.inl hh
  rw [if_pos c1, goMul_of_small _ _ hP0 hp, goDiv_of_pos _ _ hP0 hp (by omega)]
  simp only [Option.some_bind]
  have c2 : ¬ (i.w = 0 ∨ (srcH * i.w / srcW > i.h ∧ i.h ≠ 0)
      ∨ (i.w < i.w ∧ srcH * i.w / srcW < i.h)) := by
    omega
  rw [if_neg c2]
  have hw0 : i.w ≠ 0 := by omega
  rw [if_neg hw0]
  by_cases hz : srcH * i.w / srcW = 0
  · rw [if_pos hz, imagingResize_pos _ _ _ _ hW hH (by omega) (by omega), hz]
    rfl
  · rw [if_neg hz, imagingResize_pos _ _ _ _ hW hH (by omega) (by omega)]
    have : max 1 (srcH * i.w / srcW) = srcH * i.w / srcW := max_eq_right (by omega)
    rw [this]

/-- The height-only request: `resizeImage` on `w = 0`, `h > 0`. -/
theorem resizeImage_height_only (srcW srcH : Int) (i : img)
    (hW : 1 ≤ srcW) (hH : 1 ≤ srcH) (hw : i.w = 0) (hh : 0 < i.h)
    (hWr : srcW < 9223372036854775808)
    (hp : srcW * i.h < 9223372036854775808) :
    resizeImage srcW srcH i = some (max 1 (srcW * i.h / srcH), i.h) := by
  have hP0 : 0 ≤ srcW * i.h := Int.mul_nonneg (by omega) (by omega)
  have hq0 : 0 ≤ srcW * i.h / srcH := Int.ediv_nonneg hP0 (by omega)
  unfold resizeImage
  simp only [Option.bind_eq_bind, Option.pure_def]
  have c1 : ¬ (i.h = 0 ∨ (srcW > i.w ∧ i.w ≠ 0) ∨ (srcW < i.w ∧ srcH < i.h)) := by
    omega
  rw [if_neg c1]
  simp only [Option.some_bind]
  have c2 : i.w = 0 ∨ (srcH > i.h ∧ i.h ≠ 0) ∨ (srcW < i.w ∧ srcH < i.h) := Or.inl hw
  rw [if_pos c2, goMul_of_small _ _ hP0 hp, goDiv_of_pos _ _ hP0 hp (by omega)]
  simp only [Option.some_bind]
  have hh0 : i.h ≠ 0 := by omega
  rw [if_neg hh0]
  by_cases hz : srcW * i.h / srcH = 0
  · rw [if_pos hz, imagingResize_pos _ _ _ _ hW hH (by omega) (by omega), hz]
    rfl
  · rw [if_neg hz, imagingResize_pos _ _ _ _ hW hH (by omega) (by omega)]
    have : max 1 (srcW * i.h / srcH) = srcW * i.h / srcH := max_eq_right (by omega)
    rw [this]

/-- C6: for a source of size at least 1x1 and any crop mode, a request that
gives only one dimension goes to `resizeImage` (the crop mode is not
consulted): with `w > 0`, `h = 0` the saved image has size
`(w, max(1, floor(srcH*w/srcW)))`, and with `w = 0`, `h > 0` it has size
`(max(1, floor(srcW*h/srcH)), h)`, the product being one that fits an `int`;
neither dimension is below 1.  A 200x100 source with `w=100,h=0` and with
`w=0,h=50` yields 100x50. -/
theorem C6_single_dimension_resize (srcW srcH : Int) (i : img)
    (hW : 1 ≤ srcW) (hH : 1 ≤ srcH) :
    (0 < i.w → i.h = 0 → srcH * i.w < 9223372036854775808 →
        scaleSwitch srcW srcH i = resizeImage srcW srcH i
          ∧ scaleSwitch srcW srcH i = some (i.w, max 1 (srcH * i.w / srcW))
          ∧ 1 ≤ i.w ∧ 1 ≤ max 1 (srcH * i.w / srcW))
      ∧ (i.w = 0 → 0 < i.h → srcW * i.h < 9223372036854775808 →
        scaleSwitch srcW srcH i = resizeImage srcW srcH i
          ∧ scaleSwitch srcW srcH i = some (max 1 (srcW * i.h / srcH), i.h)
          ∧ 1 ≤ max 1 (srcW * i.h / srcH) ∧ 1 ≤ i.h)
      ∧ scaleSwitch 200 100 { i with w := 100, h := 0 } = some (100, 50)
      ∧ scaleSwitch 200 100 { i with w := 0, h := 50 } = some (100, 50) := by
  refine ⟨?_, ?_, ?_, ?_⟩
  · intro hw hh hp
    have e : scaleSwitch srcW srcH i = resizeImage srcW srcH i := by
      unfold scaleSwitch
      have c1 : ¬ (i.w = 0 ∧ i.h = 0) := by omega
      have c2 : ¬ (i.w ≠ 0 ∧ i.h ≠ 0 ∧ i.crop ≠ cropNone) := fun x => x.2.1 hh
      rw [if_neg c1, if_neg c2]
    refine ⟨e, ?_, by omega, le_max_left _ _⟩
    rw [e]
    exact resizeImage_width_only srcW srcH i hW hH hw hh hp
  · intro hw hh hp
    have e : scaleSwitch srcW srcH i = resizeImage srcW srcH i := by
      unfold scaleSwitch
      have c1 : ¬ (i.w = 0 ∧ i.h = 0) := by omega
      have c2 : ¬ (i.w ≠ 0 ∧ i.h ≠ 0 ∧ i.crop ≠ cropNone) := fun x => x.1 hw
      rw [if_neg c1, if_neg c2]
    refine ⟨e, ?_, le_max_left _ _, by omega⟩
    rw [e]
    have hWr : srcW < 9223372036854775808 := by
      have : srcW * 1 ≤ srcW * i.h := Int.mul_le_mul_of_nonneg_left (by omega) (by omega)
      omega
    exact resizeImage_height_only srcW srcH i hW hH hw hh hWr hp
  · rfl
  · rfl

/-- C6 at a 3x7 source: `w=10,h=0` with a centered crop yields 10x23, and
`w=0,h=2` with a left crop yields 1x2 (the width `floor(3*2/7) = 0` is raised
to 1). -/
theorem C6_single_dimension_resize_witness :
    scaleSwitch 3 7 ⟨"a.png", ".png", 10, 0, cropCentered⟩ = some (10, 23)
      ∧ scaleSwitch 3 7 ⟨"a.png", ".png", 0, 2, cropLeft⟩ = some (1, 2) :=
  ⟨by
      rw [((C6_single_dimension_resize 3 7 ⟨"a.png", ".png", 10, 0, cropCentered⟩
        (by decide) (by decide)).1 (by decide) rfl (by decide)).2.1]
      decide,
    by
      rw [((C6_single_dimension_resize 3 7 ⟨"a.png", ".png", 0, 2, cropLeft⟩
        (by decide) (by decide)).2.1 rfl (by decide) (by decide)).2.1]
      decide⟩

/-! ### C7: the body offset -/

theorem readBytes_line (l rest : List UInt8) (hl : (10 : UInt8) ∉ l) :
    ReadBytes 10 (l ++ 10 :: rest) = (l ++ [10], rest, false) := by
  induction l with
  | nil => simp [ReadBytes]
  | cons b bs ih =>
    have hb : b ≠ 10 := fun e => hl (by simp [e])
    have hbs : (10 : UInt8) ∉ bs := fun e => hl (List.mem_cons_of_mem _ e)
    simp [ReadBytes, hb, ih hbs]

theorem readBytes_tail (t : List UInt8) (ht : (10 : UInt8) ∉ t) :
    ReadBytes 10 t = (t, [], true) := by
  induction t with
  | nil => simp [ReadBytes]
  | cons b bs ih =>
    have hb : b ≠ 10 := fun e => ht (by simp [e])
    have hbs : (10 : UInt8) ∉ bs := fun e => ht (List.mem_cons_of_mem _ e)
    simp [ReadBytes, hb, ih hbs]

theorem readBytes_delim (post : List UInt8) :
    ReadBytes 10 (metaDelim ++ post) = (metaDelim, post, false) := by
  simp [ReadBytes, metaDelim]

/-- The loop stops at the first line equal to the delimiter. -/
theorem loadLoop_closed (pre : List UInt8) (hpre : BodyLines pre) :
    ∀ (fuel : Nat) (mb post : List UInt8), pre.length < fuel →
      loadLoop fuel (pre ++ metaDelim ++ post) mb = some (mb ++ pre ++ metaDelim, false) := by
  induction hpre with
  | nil =>
    intro fuel mb post hf
    obtain ⟨k, rfl⟩ : ∃ k, fuel = k + 1 := ⟨fuel - 1, by simp at hf; omega⟩
    simp only [List.nil_append, loadLoop, readBytes_delim, if_true, List.append_nil]
  | cons l rest hl hne _ ih =>
    intro fuel mb post hf
    obtain ⟨k, rfl⟩ : ∃ k, fuel = k + 1 := ⟨fuel - 1, by omega⟩
    have e : l ++ 10 :: rest ++ metaDelim ++ post = l ++ 10 :: (rest ++ metaDelim ++ post) := by
      simp
    have hk : rest.length < k := by
      simp only [List.length_append, List.length_cons] at hf
      omega
    rw [e]
    simp only [loadLoop, readBytes_line _ _ hl, hne, if_false, Bool.false_eq_true]
    rw [ih k (mb ++ (l ++ [10])) post hk]
    simp

/-- The loop ends with `io.EOF` when no line equals the delimiter. -/
theorem loadLoop_open (pre : List UInt8) (hpre : BodyLines pre) :
    ∀ (fuel : Nat) (mb tail : List UInt8), (10 : UInt8) ∉ tail → pre.length < fuel →
      loadLoop fuel (pre ++ tail) mb = some (mb ++ pre ++ tail, true) := by
  induction hpre with
  | nil =>
    intro fuel mb tail ht hf
    obtain ⟨k, rfl⟩ : ∃ k, fuel = k + 1 := ⟨fuel - 1, by simp at hf; omega⟩
    have hne : tail ≠ metaDelim := by
      intro e
      apply ht
      rw [e]
      decide
    simp only [List.nil_append, loadLoop, readBytes_tail _ ht, hne, if_false, if_true,
      List.append_nil]
  | cons l rest hl hne _ ih =>
    intro fuel mb tail ht hf
    obtain ⟨k, rfl⟩ : ∃ k, fuel = k + 1 := ⟨fuel - 1, by omega⟩
    have e : l ++ 10 :: rest ++ tail = l ++ 10 :: (rest ++ tail) := by
      simp
    have hk : rest.length < k := by
      simp only [List.length_append, List.length_cons] at hf
      omega
    rw [e]
    simp only [loadLoop, readBytes_line _ _ hl, hne, if_false, Bool.false_eq_true]
    rw [ih k (mb ++ (l ++ [10])) tail ht hk]
    simp

theorem Index_ge (sep s : List UInt8) : -1 ≤ Index s sep := by
  induction s with
  | nil =>
    unfold Index
    split <;> simp
  | cons b t ih =>
    unfold Index
    split
    · simp
    · simp only
      split <;> omega

/-- A separator that occurs is found. -/
theorem Index_found (sep a b : List UInt8) : 0 ≤ Index (a ++ sep ++ b) sep := by
  induction a with
  | nil =>
    unfold Index
    have : sep.isPrefixOf ([] ++ sep ++ b) = true := by
      rw [List.isPrefixOf_iff_prefix]
      exact ⟨b, by simp⟩
    simp [this]
  | cons x t ih =>
    unfold Index
    split
    · simp
    · simp only [List.cons_append]
      have := Index_ge sep (t ++ sep ++ b)
      split <;> omega

/-- Every sequence of bytes is either complete lines up to a first delimiter
line, or complete lines none of which is the delimiter followed by an
unterminated last line. -/
theorem bodyLines_cases (body : List UInt8) :
    (∃ pre post, body = pre ++ metaDelim ++ post ∧ BodyLines pre)
      ∨ (∃ pre tail, body = pre ++ tail ∧ BodyLines pre ∧ (10 : UInt8) ∉ tail) := by
  have split : ∀ s : List UInt8, (10 : UInt8) ∈ s →
      ∃ l rest, s = l ++ 10 :: rest ∧ (10 : UInt8) ∉ l := by
    intro s
    induction s with
    | nil => intro h; simp at h
    | cons b t ih =>
      intro h
      by_cases hb : b = 10
      · exact ⟨[], t, by simp [hb], by simp⟩
      · have ht : (10 : UInt8) ∈ t := by
          rcases List.mem_cons.mp h with e | e
          · exact absurd e.symm hb
          · exact e
        obtain ⟨l, rest, e, hl⟩ := ih ht
        refine ⟨b :: l, rest, by simp [e], ?_⟩
        intro hm
        rcases List.mem_cons.mp hm with e2 | e2
        · exact hb e2.symm
        · exact hl e2
  have main : ∀ n (body : List UInt8), body.length ≤ n →
      (∃ pre post, body = pre ++ metaDelim ++ post ∧ BodyLines pre)
        ∨ (∃ pre tail, body = pre ++ tail ∧ BodyLines pre ∧ (10 : UInt8) ∉ tail) := by
    intro n
    induction n with
    | zero =>
      intro body hb
      have : body = [] := List.length_eq_zero.mp (by omega)
      subst this
      exact Or.inr ⟨[], [], rfl, BodyLines.nil, by simp⟩
    | succ n ih =>
      intro body hb
      by_cases hm : (10 : UInt8) ∈ body
      · obtain ⟨l, rest, e, hl⟩ := split body hm
        by_cases hd : l ++ [10] = metaDelim
        · refine Or.inl ⟨[], rest, ?_, BodyLines.nil⟩
          rw [e, ← hd]
          simp
        · have hr : rest.length ≤ n := by
            rw [e] at hb
            simp only [List.length_append, List.length_cons] at hb
            omega
          rcases ih rest hr with ⟨pre, post, e2, hp⟩ | ⟨pre, tail, e2, hp, ht⟩
          · refine Or.inl ⟨l ++ 10 :: pre, post, ?_, BodyLines.cons l pre hl hd hp⟩
            rw [e, e2]
            simp
          · refine Or.inr ⟨l ++ 10 :: pre, tail, ?_, BodyLines.cons l pre hl hd hp, ht⟩
            rw [e, e2]
            simp
      · exact Or.inr ⟨[], body, rfl, BodyLines.nil, hm⟩
  exact main body.length body (le_refl _)

theorem read_of_delim (body : List UInt8) :
    Read metaDelim.length (metaDelim ++ body) = (metaDelim, body, false) := by
  simp [Read, metaDelim]

theorem read_not_delim (buf : List UInt8) (h : ¬ metaDelim <+: buf) :
    (Read metaDelim.length buf).2.2 = true ∨ (Read metaDelim.length buf).1 ≠ metaDelim := by
  cases buf with
  | nil => left; rfl
  | cons b t =>
    right
    intro e
    apply h
    simp only [Read] at e
    rw [← e]
    exact List.take_prefix _ _

theorem processMeta_f (L : Lib) (c : content) (m : List UInt8) (b : Bool) (r : Ret)
    (h : processMeta L c m b = .ok r) : r.c.f = c.f := by
  unfold processMeta at h
  split at h
  · cases h
    rfl
  · split at h
    · cases h
    · simp only at h
      split at h
      · cases h
        rfl
      · split at h
        · cases h
        · cases h
          rfl

theorem processMeta_metaEnd (L : Lib) (c : content) (m : List UInt8) (b : Bool) (r : Ret)
    (h : processMeta L c m b = .ok r) : r.c.metaEnd = c.metaEnd := by
  unfold processMeta at h
  split at h
  · cases h
    rfl
  · split at h
    · cases h
    · simp only at h
      split at h
      · cases h
        rfl
      · split at h
        · cases h
        · cases h
          rfl

/-- The two parts of `load` make up `load`. -/
theorem load_eq (L : Lib) (fs : String → Option (List UInt8)) (c : content) :
    load L fs c =
      match loadSidecar L fs c with
      | .error a => .error a
      | .ok { err := some e, c := c1 } => .ok { err := some e, c := c1 }
      | .ok { err := none, c := c1 } => loadInline L fs c1 := by
  unfold load loadSidecar loadInline
  rfl

/-- What a sidecar step that returns nil leaves of the content object: with no
sidecar file the object itself, and in any case its file and body offset. -/
theorem loadSidecar_ok (L : Lib) (fs : String → Option (List UInt8)) (c c1 : content)
    (h : loadSidecar L fs c = .ok { err := none, c := c1 }) :
    c1.f = c.f ∧ c1.metaEnd = c.metaEnd
      ∧ (fs (fChangeExt c.f.srcPath ".meta") = none → c1 = c) := by
  unfold loadSidecar at h
  cases hfs : fs (fChangeExt c.f.srcPath ".meta") with
  | none =>
    simp only [hfs] at h
    cases h
    exact ⟨rfl, rfl, fun _ => rfl⟩
  | some m =>
    simp only [hfs] at h
    exact ⟨processMeta_f L c m true _ h, processMeta_metaEnd L c m true _ h,
      fun hn => by cases hn⟩

/-- C7: once the sidecar step of `load` has returned nil (there is no sidecar
file, or `processMeta` accepted it), leaving the content object `c1`, the
result of `load` is determined by the bytes of the source.  The sidecar step
leaves the body offset as it was (and with no sidecar file `c1` is `c`).  If
the bytes do not begin with the delimiter line (the empty file included),
`load` returns nil and leaves `c1` as it is, so the body offset is the 0 it was
created with.  If they begin with the delimiter and a later line is exactly the
delimiter line, `metaEnd` is the offset just after the first such line.  If
they begin with the delimiter and no later line equals it, `load` returns the
error that reports the missing closing delimiter.  The last two cases cover
every file that begins with the delimiter. -/
theorem C7_load_metaEnd (L : Lib) (fs : String → Option (List UInt8)) (c c1 : content)
    (buf : List UInt8)
    (hside : loadSidecar L fs c = .ok { err := none, c := c1 })
    (hsrc : fs c.f.srcPath = some buf) :
    c1.metaEnd = c.metaEnd
      ∧ (fs (fChangeExt c.f.srcPath ".meta") = none → c1 = c)
      ∧ (¬ metaDelim <+: buf → load L fs c = .ok { err := none, c := c1 })
      ∧ (∀ pre post, buf = metaDelim ++ pre ++ metaDelim ++ post → BodyLines pre →
          ∃ r, load L fs c = .ok r
            ∧ r.c.metaEnd = metaDelim.length + pre.length + metaDelim.length)
      ∧ (∀ pre tail, buf = metaDelim ++ pre ++ tail → BodyLines pre → (10 : UInt8) ∉ tail →
          load L fs c = .ok { err := some missingClosingMsg, c := c1 })
      ∧ (metaDelim <+: buf →
          (∃ pre post, buf = metaDelim ++ pre ++ metaDelim ++ post ∧ BodyLines pre)
            ∨ (∃ pre tail, buf = metaDelim ++ pre ++ tail ∧ BodyLines pre
                ∧ (10 : UInt8) ∉ tail)) := by
  obtain ⟨hf, hme, hnone⟩ := loadSidecar_ok L fs c c1 hside
  have hsrc1 : fs c1.f.srcPath = some buf := by
    rw [hf]
    exact hsrc
  have hload : load L fs c = loadInline L fs c1 := by
    rw [load_eq, hside]
  refine ⟨hme, hnone, ?_, ?_, ?_, ?_⟩
  · intro hnp
    rw [hload]
    unfold loadInline
    simp only [hsrc1]
    rcases read_not_delim buf hnp with h | h
    · simp [h]
    · by_cases h2 : (Read metaDelim.length buf).2.2 = true
      · simp [h2]
      · simp [h2, h]
  · intro pre post hbuf hpre
    have hloop := loadLoop_closed pre hpre ((pre ++ metaDelim ++ post).length + 1) metaDelim post
      (by simp only [List.length_append]; omega)
    have hidx : 0 ≤ Index ((metaDelim ++ pre ++ metaDelim).drop 3) metaDelim := by
      have e : (metaDelim ++ pre ++ metaDelim).drop 3 = ([10] ++ pre) ++ metaDelim ++ [] := by
        simp [metaDelim]
      rw [e]
      exact Index_found _ _ _
    have hpfx : HasPrefix (metaDelim ++ pre ++ metaDelim) metaDelim = true := by
      unfold HasPrefix
      rw [List.isPrefixOf_iff_prefix]
      exact ⟨pre ++ metaDelim, by simp⟩
    have hlen : ¬ (metaDelim ++ pre ++ metaDelim).length < 3 := by
      simp [metaDelim]
    have h1 : ¬ (Index ((metaDelim ++ pre ++ metaDelim).drop 3) metaDelim == -1) = true := by
      simp only [beq_iff_eq]
      omega
    have h2 : ¬ Index ((metaDelim ++ pre ++ metaDelim).drop 3) metaDelim + 3 < 3 := by
      omega
    refine ⟨merge L { c1 with metaEnd := (metaDelim ++ pre ++ metaDelim).length }
      (L.TrimSpace (((metaDelim ++ pre ++ metaDelim).take
        (Index ((metaDelim ++ pre ++ metaDelim).drop 3) metaDelim + 3).toNat).drop 3)), ?_, ?_⟩
    · rw [hload]
      unfold loadInline
      simp only [hsrc1]
      have e : buf = metaDelim ++ (pre ++ metaDelim ++ post) := by
        rw [hbuf]
        simp
      rw [e, read_of_delim]
      simp only [Bool.false_eq_true, if_false, ne_eq, not_true_eq_false]
      rw [hloop]
      simp only
      unfold processMeta
      simp only [hpfx, hlen, h1, h2, Bool.not_true, Bool.false_and, Bool.and_false,
        Bool.false_eq_true, if_false]
    · simp only [merge, List.length_append]
  · intro pre tail hbuf hpre ht
    have hloop := loadLoop_open pre hpre ((pre ++ tail).length + 1) metaDelim tail ht
      (by simp only [List.length_append]; omega)
    rw [hload]
    unfold loadInline
    simp only [hsrc1]
    have e : buf = metaDelim ++ (pre ++ tail) := by
      rw [hbuf]
      simp
    rw [e, read_of_delim]
    simp only [Bool.false_eq_true, if_false, ne_eq, not_true_eq_false]
    rw [hloop]
  · intro hp
    obtain ⟨body, rfl⟩ := hp
    rcases bodyLines_cases body with ⟨pre, post, e, hpre⟩ | ⟨pre, tail, e, hpre, ht⟩
    · exact Or.inl ⟨pre, post, by rw [e]; simp, hpre⟩
    · exact Or.inr ⟨pre, tail, by rw [e]; simp, hpre, ht⟩

/-- C7 at a source with a sidecar file: `src.meta` holds a delimited block, which
`processMeta` accepts, and the front matter of `src.md` closes at byte 17. -/
theorem C7_load_metaEnd_witness :
    loadSidecar demoLib
        (fsTwo (utf8 "---\ntitle: A\n---\n") (utf8 "---\ntitle: B\n---\nbody\n")) demoContent
        = .ok { err := none, c := { demoContent with «meta» := [utf8 "title: A"] } }
      ∧ BodyLines (utf8 "title: B\n")
      ∧ ∃ r, load demoLib
          (fsTwo (utf8 "---\ntitle: A\n---\n") (utf8 "---\ntitle: B\n---\nbody\n")) demoContent
            = .ok r
          ∧ r.c.metaEnd = 17 :=
  ⟨by decide,
    BodyLines.cons (utf8 "title: B") [] (by decide) (by decide) BodyLines.nil,
    (C7_load_metaEnd demoLib
      (fsTwo (utf8 "---\ntitle: A\n---\n") (utf8 "---\ntitle: B\n---\nbody\n")) demoContent
      { demoContent with «meta» := [utf8 "title: A"] }
      (utf8 "---\ntitle: B\n---\nbody\n") (by decide) (by decide)).2.2.2.1
      (utf8 "title: B\n") (utf8 "body\n") (by decide)
      (BodyLines.cons (utf8 "title: B") [] (by decide) (by decide) BodyLines.nil)⟩

/-! ### C8: a sidecar file without a delimiter line -/

/-- C8 (the code at the test's sidecar): `processMeta` called on the bytes of
the test's `layout2.meta`, which hold no delimiter line, with
`isMetaFile = true`, panics at the slice `m[3 : end+3]` with `end = -1`, for
every content object and whatever `TrimSpace` and `merge` do; so `load` of
`layouts/blog/layout2.css`, which finds that sidecar, panics instead of merging
it.  The same bytes given as inline front matter are skipped without a
panic. -/
theorem C8_sidecar_without_delimiter_panics :
    (∀ (L : Lib) (c : content),
        processMeta L c (utf8 "render: true\nval: layout 2") true = .error .panic)
      ∧ (∀ L : Lib, load L testFs testContent = .error .panic)
      ∧ Index ((utf8 "render: true\nval: layout 2").drop 3) metaDelim = -1
      ∧ (∀ (L : Lib) (c : content),
          processMeta L c (utf8 "render: true\nval: layout 2") false
            = .ok { err := none, c := c }) :=
  ⟨fun _ _ => rfl, fun _ => rfl, by decide, fun _ _ => rfl⟩

/-! ### C9: `find` -/

theorem load_f (L : Lib) (fs : String → Option (List UInt8)) (c : content) (r : Ret)
    (h : load L fs c = .ok r) : r.c.f = c.f := by
  unfold load at h
  simp only at h
  split at h
  · cases h
  · rename_i e c1 hs
    cases h
    have : c1 = c ∨ ∃ m, processMeta L c m true = .ok { err := some e, c := c1 } := by
      split at hs
      · exact Or.inr ⟨_, hs⟩
      · cases hs
    rcases this with h1 | ⟨m, h1⟩
    · rw [h1]
    · exact processMeta_f L c m true _ h1
  · rename_i c1 hs
    have hc1 : c1.f = c.f := by
      split at hs
      · exact processMeta_f L c _ true _ hs
      · cases hs
        rfl
    rw [← hc1]
    split at h
    · cases h
      rfl
    · split at h
      · cases h
        rfl
      · split at h
        · cases h
          rfl
        · split at h
          · cases h
          · cases h
            rfl
          · have h2 := processMeta_f L _ _ false _ h
            exact h2

/-- What one `add` does to the registry. -/
theorem add_ok (L : Lib) (hasGenerator : String → Bool) (fs : String → Option (List UInt8))
    (cs cs1 : contents) (f : file) (err : Option String)
    (h : cs.add L hasGenerator fs f = .ok (cs1, err)) :
    cs1.srcs = mapSet cs.srcs f.srcPath cs.next ∧ cs1.next = cs.next + 1
      ∧ (cs1.heap cs.next).f.srcPath = f.srcPath
      ∧ (∀ q, q ≠ cs.next → cs1.heap q = cs.heap q) := by
  unfold contents.add at h
  simp only at h
  split at h
  · cases h
  · split at h
    · cases h
    · rename_i r hl
      have hf := load_f L fs _ r hl
      simp only [Except.ok.injEq, Prod.mk.injEq] at h
      obtain ⟨h1, _⟩ := h
      subst h1
      refine ⟨rfl, rfl, ?_, ?_⟩
      · simp [heapSet, hf]
      · intro q hq
        simp [heapSet, hq]

theorem addAll_srcs (L : Lib) (hasGenerator : String → Bool)
    (fs : String → Option (List UInt8)) (files : List file) :
    ∀ (cs cs2 : contents) (errs : List String),
      addAll L hasGenerator fs cs files = .ok (cs2, errs) → srcsSound cs →
        srcsSound cs2
          ∧ ∀ s, cs2.srcs s = none ↔ (cs.srcs s = none ∧ ∀ f ∈ files, f.srcPath ≠ s) := by
  induction files with
  | nil =>
    intro cs cs2 errs h hs
    simp only [addAll, Except.ok.injEq, Prod.mk.injEq] at h
    obtain ⟨h1, _⟩ := h
    subst h1
    exact ⟨hs, fun s => by simp⟩
  | cons f rest ih =>
    intro cs cs2 errs h hs
    simp only [addAll] at h
    split at h
    · cases h
    · rename_i cs1 err hadd
      split at h
      · cases h
      · rename_i cs3 errs3 hrest
        simp only [Except.ok.injEq, Prod.mk.injEq] at h
        obtain ⟨h1, _⟩ := h
        subst h1
        obtain ⟨a1, a2, a3, a4⟩ := add_ok L hasGenerator fs cs cs1 f err hadd
        have hs1 : srcsSound cs1 := by
          intro s p hp
          rw [a1] at hp
          unfold mapSet at hp
          split at hp
          · rename_i e
            cases hp
            rw [a2, e]
            exact ⟨Nat.lt_succ_self _, a3⟩
          · obtain ⟨b1, b2⟩ := hs s p hp
            rw [a2, a4 p (Nat.ne_of_lt b1)]
            exact ⟨Nat.lt_succ_of_lt b1, b2⟩
        obtain ⟨c1, c2⟩ := ih cs1 cs3 errs3 hrest hs1
        refine ⟨c1, ?_⟩
        intro s
        rw [c2 s, a1]
        unfold mapSet
        constructor
        · rintro ⟨d1, d2⟩
          split at d1
          · cases d1
          · rename_i e
            refine ⟨d1, ?_⟩
            intro g hg
            rcases List.mem_cons.mp hg with e2 | e2
            · rw [e2]
              exact fun x => e x.symm
            · exact d2 g e2
        · rintro ⟨d1, d2⟩
          have e : ¬ s = f.srcPath := fun x => d2 f (List.mem_cons_self _ _) x.symm
          rw [if_neg e]
          exact ⟨d1, fun g hg => d2 g (List.mem_cons_of_mem _ hg)⟩

/-- C9 (as stated, refuted): after `add` of the test page
`content/blog/post1.md`, whose destination is `blog/post1.html`, the item at
address 0 has the content-path identity `blog/post1`.  From the context
`blog/post2` the relative path `post1` joins to exactly `blog/post1`, and
`find` returns the not-found error although that item is registered; from the
context `content/blog/post2.md` the relative path `post1.md` joins to the
source path `content/blog/post1.md`, and `find` returns the item, whose
content-path identity differs from the joined path. -/
theorem C9_find_ignores_content_path :
    ((emptyRegistry.add demoLib (fun _ => true) post1Fs post1).toOption.map
        (fun r => (r.1.heap 0).cpath)) = some "blog/post1"
      ∧ findKey "blog/post2" "post1" = "blog/post1"
      ∧ ((emptyRegistry.add demoLib (fun _ => true) post1Fs post1).toOption.map
          (fun r => r.1.find "blog/post2" "post1"))
          = some (none, some "content `blog/post1` from rel path `post1` not found")
      ∧ findKey "content/blog/post2.md" "post1.md" = "content/blog/post1.md"
      ∧ ((emptyRegistry.add demoLib (fun _ => true) post1Fs post1).toOption.map
          (fun r => r.1.find "content/blog/post2.md" "post1.md")) = some (some 0, none) := by
  refine ⟨by decide, by decide, by decide, by decide, by decide⟩

/-- C9 (amended): after any sequence of `add` calls on the registry made by
`init`, `find(contextPath, rel)` joins `contextPath`, `../` and `rel` and looks
the joined path up among the source paths: it returns the item registered under
that source path with a nil error, that item's source path being the joined
path, when some added file has it; and it returns a nil item with the
not-found error exactly when no added file has that source path. -/
theorem C9_find_by_source_path (L : Lib) (hasGenerator : String → Bool)
    (fs : String → Option (List UInt8)) (cs0 cs : contents) (files : List file)
    (errs : List String) (currFile rel : String)
    (h : addAll L hasGenerator fs cs0.init files = .ok (cs, errs)) :
    (∀ p, cs.find currFile rel = (some p, none) ↔ cs.srcs (findKey currFile rel) = some p)
      ∧ (∀ p, (cs.find currFile rel).1 = some p →
          (cs.heap p).f.srcPath = findKey currFile rel ∧ (cs.find currFile rel).2 = none)
      ∧ (cs.find currFile rel = (none, some (notFoundMsg (findKey currFile rel) rel))
          ↔ ∀ f ∈ files, f.srcPath ≠ findKey currFile rel)
      ∧ ((cs.find currFile rel).2 ≠ none
          ↔ ∀ f ∈ files, f.srcPath ≠ findKey currFile rel) := by
  have hinit : srcsSound cs0.init := by
    intro s p hp
    simp [contents.init] at hp
  obtain ⟨hs, hnone⟩ := addAll_srcs L hasGenerator fs files cs0.init cs errs h hinit
  have hn : cs.srcs (findKey currFile rel) = none
      ↔ ∀ f ∈ files, f.srcPath ≠ findKey currFile rel := by
    rw [hnone]
    simp [contents.init]
  refine ⟨?_, ?_, ?_, ?_⟩
  · intro p
    unfold contents.find
    simp only
    cases hk : cs.srcs (findKey currFile rel) with
    | none => simp
    | some q => simp
  · intro p hp
    unfold contents.find at hp ⊢
    simp only at hp ⊢
    cases hk : cs.srcs (findKey currFile rel) with
    | none => simp [hk] at hp
    | some q =>
      simp only [hk, Option.some.injEq] at hp
      subst hp
      exact ⟨(hs _ _ hk).2, rfl⟩
  · rw [← hn]
    unfold contents.find
    simp only
    cases hk : cs.srcs (findKey currFile rel) with
    | none => simp
    | some q => simp
  · rw [← hn]
    unfold contents.find
    simp only
    cases hk : cs.srcs (findKey currFile rel) with
    | none => simp
    | some q => simp

/-- C9 (amended) at the test page: after its `add`, `find` from
`content/blog/post2.md` to `post1.md` returns the item at address 0. -/
theorem C9_find_by_source_path_witness :
    ∃ cs errs, addAll demoLib (fun _ => true) post1Fs emptyRegistry.init [post1] = .ok (cs, errs)
      ∧ (∀ p, (cs.find "content/blog/post2.md" "post1.md").1 = some p →
          (cs.heap p).f.srcPath = findKey "content/blog/post2.md" "post1.md"
            ∧ (cs.find "content/blog/post2.md" "post1.md").2 = none) :=
  by
    have hsome : (addAll demoLib (fun _ => true) post1Fs emptyRegistry.init
        [post1]).toOption.isSome = true := by decide
    cases hadd : addAll demoLib (fun _ => true) post1Fs emptyRegistry.init [post1] with
    | error a =>
      rw [hadd] at hsome
      cases hsome
    | ok x =>
      exact ⟨x.1, x.2, rfl,
        (C9_find_by_source_path demoLib (fun _ => true) post1Fs emptyRegistry x.1 [post1] x.2
          "content/blog/post2.md" "post1.md" hadd).2.1⟩

/-! ### C10: the phases of a build -/

theorem checkErrs_of_empty {σ : Type} (P : Phases σ) (ss : siteState σ) (h : sinkEmpty ss) :
    checkErrs P ss = (true, ss) := by
  unfold sinkEmpty at h
  simp [checkErrs, h]

theorem checkErrs_of_nonempty {σ : Type} (P : Phases σ) (ss : siteState σ)
    (h : ¬ sinkEmpty ss) :
    checkErrs P ss = (false, { ss with logOut := ss.logOut ++ P.Fprintf ss.errs }) := by
  unfold sinkEmpty at h
  simp [checkErrs, h]

/-- C10: `build` runs load, gate, finalize, render, gate, render-list-pages,
gate, sweep, in that order, and stops at the first gate that finds the error
sink non-empty: it then returns false, having logged the errors, and no later
phase has run.  When all three gates find the sink empty it runs the sweep and
returns true.  So the steps taken are always an initial part of that order, and
the sweep runs iff `build` returns true iff all three gates found the sink
empty. -/
theorem C10_build_phases {σ : Type} (P : Phases σ) (ss : siteState σ) :
    (¬ sinkEmpty (P.loadAll ss) →
        build P ss = (false, (checkErrs P (P.loadAll ss)).2, [.load, .gate]))
      ∧ (sinkEmpty (P.loadAll ss) →
          ¬ sinkEmpty (P.renderAll (P.loadFinished (P.loadAll ss))) →
          build P ss = (false, (checkErrs P (P.renderAll (P.loadFinished (P.loadAll ss)))).2,
            [.load, .gate, .finalize, .render, .gate]))
      ∧ (sinkEmpty (P.loadAll ss) →
          sinkEmpty (P.renderAll (P.loadFinished (P.loadAll ss))) →
          ¬ sinkEmpty (P.renderListPages (P.renderAll (P.loadFinished (P.loadAll ss)))) →
          build P ss = (false,
            (checkErrs P (P.renderListPages (P.renderAll (P.loadFinished (P.loadAll ss))))).2,
            [.load, .gate, .finalize, .render, .gate, .renderListPages, .gate]))
      ∧ (sinkEmpty (P.loadAll ss) →
          sinkEmpty (P.renderAll (P.loadFinished (P.loadAll ss))) →
          sinkEmpty (P.renderListPages (P.renderAll (P.loadFinished (P.loadAll ss)))) →
          build P ss = (true,
            P.removeUnused (P.renderListPages (P.renderAll (P.loadFinished (P.loadAll ss)))),
            phaseOrder))
      ∧ (build P ss).2.2 <+: phaseOrder
      ∧ (Phase.sweep ∈ (build P ss).2.2 ↔ (build P ss).1 = true)
      ∧ ((build P ss).1 = true ↔
          sinkEmpty (P.loadAll ss)
            ∧ sinkEmpty (P.renderAll (P.loadFinished (P.loadAll ss)))
            ∧ sinkEmpty (P.renderListPages (P.renderAll (P.loadFinished (P.loadAll ss))))) := by
  by_cases g1 : sinkEmpty (P.loadAll ss)
  · by_cases g2 : sinkEmpty (P.renderAll (P.loadFinished (P.loadAll ss)))
    · by_cases g3 : sinkEmpty (P.renderListPages (P.renderAll (P.loadFinished (P.loadAll ss))))
      · have e : build P ss = (true,
            P.removeUnused (P.renderListPages (P.renderAll (P.loadFinished (P.loadAll ss)))),
            phaseOrder) := by
          simp [build, checkErrs_of_empty, g1, g2, g3, phaseOrder]
        refine ⟨fun h => absurd g1 h, fun _ h => absurd g2 h, fun _ _ h => absurd g3 h,
          fun _ _ _ => e, ?_, ?_, ?_⟩
        · rw [e]
        · rw [e]
          simp [phaseOrder]
        · rw [e]
          simp [g1, g2, g3]
      · have e : build P ss = (false,
            (checkErrs P (P.renderListPages (P.renderAll (P.loadFinished (P.loadAll ss))))).2,
            [.load, .gate, .finalize, .render, .gate, .renderListPages, .gate]) := by
          simp [build, checkErrs_of_empty, checkErrs_of_nonempty, g1, g2, g3]
        refine ⟨fun h => absurd g1 h, fun _ h => absurd g2 h, fun _ _ _ => e,
          fun _ _ h => absurd h g3, ?_, ?_, ?_⟩
        · rw [e]
          exact ⟨[.sweep], rfl⟩
        · rw [e]
          simp
        · rw [e]
          simp [g3]
    · have e : build P ss = (false,
          (checkErrs P (P.renderAll (P.loadFinished (P.loadAll ss)))).2,
          [.load, .gate, .finalize, .render, .gate]) := by
        simp [build, checkErrs_of_empty, checkErrs_of_nonempty, g1, g2]
      refine ⟨fun h => absurd g1 h, fun _ _ => e, fun _ h => absurd h g2,
        fun _ h => absurd h g2, ?_, ?_, ?_⟩
      · rw [e]
        exact ⟨[.renderListPages, .gate, .sweep], rfl⟩
      · rw [e]
        simp
      · rw [e]
        simp [g2]
  · have e : build P ss = (false, (checkErrs P (P.loadAll ss)).2, [.load, .gate]) := by
      simp [build, checkErrs_of_nonempty, g1]
    refine ⟨fun _ => e, fun h => absurd h g1, fun h => absurd h g1, fun h => absurd h g1,
      ?_, ?_, ?_⟩
    · rw [e]
      exact ⟨[.finalize, .render, .gate, .renderListPages, .gate, .sweep], rfl⟩
    · rw [e]
      simp
    · rw [e]
      simp [g1]

/-- C10 at a build whose render phase reports an error: load passes its gate,
the second gate stops the build, which returns false with the error text
logged, and neither the list pages nor the sweep has run. -/
theorem C10_build_phases_witness :
    sinkEmpty (demoPhases.loadAll ⟨0, "", ""⟩)
      ∧ ¬ sinkEmpty (demoPhases.renderAll (demoPhases.loadFinished (demoPhases.loadAll ⟨0, "", ""⟩)))
      ∧ (build demoPhases ⟨0, "", ""⟩).1 = false
      ∧ (build demoPhases ⟨0, "", ""⟩).2.1.logOut = "render failed\n"
      ∧ (build demoPhases ⟨0, "", ""⟩).2.2 = [.load, .gate, .finalize, .render, .gate] := by
  have h := (C10_build_phases demoPhases ⟨0, "", ""⟩).2.1 (by decide) (by decide)
  refine ⟨by decide, by decide, ?_, ?_, ?_⟩
  · rw [h]
  · rw [h]
    decide
  · rw [h]

/-! ### C11: the thumbnail covers the requested box -/

/-- For a non-empty source and a request of at least 1x1 whose products fit an
`int`, the scaled size is the exact cover scaling, it covers the request, and it
fits an `int`. -/
theorem thumbnailScale_cover (srcW srcH : Int) (i : img)
    (hW : 1 ≤ srcW) (hH : 1 ≤ srcH) (hw : 1 ≤ i.w) (hh : 1 ≤ i.h)
    (p1 : srcH * i.w < 9223372036854775808) (p2 : srcW * i.h < 9223372036854775808)
    (p3 : i.w * i.h < 9223372036854775808) :
    thumbnailScale srcW srcH i = some (coverScaleExact srcW srcH i)
      ∧ i.w ≤ (coverScaleExact srcW srcH i).1 ∧ i.h ≤ (coverScaleExact srcW srcH i).2
      ∧ (coverScaleExact srcW srcH i).1 < 9223372036854775808
      ∧ (coverScaleExact srcW srcH i).2 < 9223372036854775808 := by
  have hP0 : 0 ≤ srcH * i.w := Int.mul_nonneg (by omega) (by omega)
  have hQ0 : 0 ≤ srcW * i.h := Int.mul_nonneg (by omega) (by omega)
  have hR0 : 0 ≤ i.w * i.h := Int.mul_nonneg (by omega) (by omega)
  have hsW : srcW ≤ srcW * i.h := by
    have := Int.mul_le_mul_of_nonneg_left hh (show (0 : Int) ≤ srcW by omega)
    omega
  have hsH : srcH ≤ srcH * i.w := by
    have := Int.mul_le_mul_of_nonneg_left hw (show (0 : Int) ≤ srcH by omega)
    omega
  have hsw : i.w ≤ i.w * i.h := by
    have := Int.mul_le_mul_of_nonneg_left hh (show (0 : Int) ≤ i.w by omega)
    omega
  have hsh : i.h ≤ srcW * i.h := by
    have := Int.mul_le_mul_of_nonneg_right hW (show (0 : Int) ≤ i.h by omega)
    omega
  unfold thumbnailScale coverScaleExact
  simp only [Option.bind_eq_bind, Option.pure_def]
  by_cases c1 : srcW < i.w
  · have hge : srcH * srcW ≤ srcH * i.w :=
      Int.mul_le_mul_of_nonneg_left (by omega) (by omega)
    have hq1 : srcH ≤ srcH * i.w / srcW := Int.le_ediv_of_mul_le (by omega) hge
    have hq1u : srcH * i.w / srcW ≤ srcH * i.w := Int.ediv_le_self _ hP0
    rw [if_pos c1, if_pos c1, goMul_of_small _ _ hP0 p1, goDiv_of_pos _ _ hP0 p1 (by omega)]
    simp only [Option.some_bind]
    by_cases c2 : srcH * i.w / srcW < i.h
    · have hge2 : i.w * (srcH * i.w / srcW) ≤ i.w * i.h :=
        Int.mul_le_mul_of_nonneg_left (by omega) (by omega)
      have hq2 : i.w ≤ i.w * i.h / (srcH * i.w / srcW) :=
        Int.le_ediv_of_mul_le (by omega) hge2
      have hq2u : i.w * i.h / (srcH * i.w / srcW) ≤ i.w * i.h := Int.ediv_le_self _ hR0
      rw [if_pos c2, if_pos c2, goMul_of_small _ _ hR0 p3,
        goDiv_of_pos _ _ hR0 p3 (by omega)]
      simp only [Option.some_bind]
      have n1 : i.w * i.h / (srcH * i.w / srcW) ≠ 0 := by omega
      have n2 : i.h ≠ 0 := by omega
      rw [if_neg n1, if_neg n2]
      exact ⟨rfl, hq2, le_refl _, by omega, by omega⟩
    · rw [if_neg c2, if_neg c2]
      simp only [Option.some_bind]
      have n1 : i.w ≠ 0 := by omega
      have n2 : srcH * i.w / srcW ≠ 0 := by omega
      rw [if_neg n1, if_neg n2]
      exact ⟨rfl, le_refl _, by omega, by omega, by omega⟩
  · rw [if_neg c1, if_neg c1]
    simp only [Option.some_bind]
    by_cases c2 : srcH < i.h
    · have hge2 : srcW * srcH ≤ srcW * i.h :=
        Int.mul_le_mul_of_nonneg_left (by omega) (by omega)
      have hq2 : srcW ≤ srcW * i.h / srcH := Int.le_ediv_of_mul_le (by omega) hge2
      have hq2u : srcW * i.h / srcH ≤ srcW * i.h := Int.ediv_le_self _ hQ0
      rw [if_pos c2, if_pos c2, goMul_of_small _ _ hQ0 p2,
        goDiv_of_pos _ _ hQ0 p2 (by omega)]
      simp only [Option.some_bind]
      have n1 : srcW * i.h / srcH ≠ 0 := by omega
      have n2 : i.h ≠ 0 := by omega
      rw [if_neg n1, if_neg n2]
      exact ⟨rfl, by omega, le_refl _, by omega, by omega⟩
    · rw [if_neg c2, if_neg c2]
      simp only [Option.some_bind]
      have n1 : srcW ≠ 0 := by omega
      have n2 : srcH ≠ 0 := by omega
      rw [if_neg n1, if_neg n2]
      exact ⟨rfl, by omega, by omega, by omega, by omega⟩

/-- A crop window that lies inside the image is cut out whole. -/
theorem imagingCrop_inside (sw sh w h : Int) (c : Rectangle)
    (h1 : 0 ≤ c.Min.X) (h2 : 0 ≤ c.Min.Y) (h3 : c.Max.X ≤ sw) (h4 : c.Max.Y ≤ sh)
    (h5 : c.Max.X - c.Min.X = w) (h6 : c.Max.Y - c.Min.Y = h) (hw : 1 ≤ w) (hh : 1 ≤ h)
    (hsw : sw < 9223372036854775808) (hsh : sh < 9223372036854775808) :
    imagingCrop sw sh c = (w, h) := by
  have a1 : ¬ c.Min.X < 0 := by omega
  have a2 : ¬ c.Min.Y < 0 := by omega
  have a3 : ¬ c.Max.X > sw := by omega
  have a4 : ¬ c.Max.Y > sh := by omega
  have a5 : ¬ (c.Min.X ≥ c.Max.X ∨ c.Min.Y ≥ c.Max.Y) := by omega
  have e : c.Intersect ⟨⟨0, 0⟩, ⟨sw, sh⟩⟩ = c := by
    simp [Rectangle.Intersect, Rectangle.Empty, a1, a2, a3, a4, a5]
  unfold imagingCrop
  simp only [e]
  have e2 : c.Empty = false := by
    simp [Rectangle.Empty, a5]
  simp only [e2, Bool.false_eq_true, if_false, Rectangle.Dx, Rectangle.Dy, goSub, wrap64,
    Prod.mk.injEq]
  constructor <;> omega

/-- The crop window of a request that the scaled image covers lies inside the
scaled image and has the requested size. -/
theorem thumbnailCrop_inside (sw sh : Int) (i : img)
    (hw : 1 ≤ i.w) (hh : 1 ≤ i.h) (hsw : i.w ≤ sw) (hsh : i.h ≤ sh)
    (bw : sw < 9223372036854775808) (bh : sh < 9223372036854775808)
    (hc : i.crop = cropLeft ∨ i.crop = cropCentered) :
    ∃ c, thumbnailCrop sw sh i = some c
      ∧ 0 ≤ c.Min.X ∧ 0 ≤ c.Min.Y ∧ c.Max.X ≤ sw ∧ c.Max.Y ≤ sh
      ∧ c.Max.X - c.Min.X = i.w ∧ c.Max.Y - c.Min.Y = i.h := by
  have n : cropCentered ≠ cropLeft := by decide
  unfold thumbnailCrop
  rcases hc with h | h
  · rw [if_pos h]
    exact ⟨_, rfl, le_refl _, le_refl _, hsw, hsh, by simp, by simp⟩
  · have h' : ¬ i.crop = cropLeft := by rw [h]; exact n
    rw [if_neg h', if_pos h]
    have t1 := tdiv_two sw
    have t2 := tdiv_two sh
    have t3 := tdiv_two i.w
    have t4 := tdiv_two i.h
    rw [if_pos (by omega)] at t1 t2 t3 t4
    refine ⟨_, rfl, ?_, ?_, ?_, ?_, ?_, ?_⟩ <;>
      simp only [goSub, goAdd, wrap64, t1, t2, t3, t4] <;> omega

/-- C11: for every source of size at least 1x1 and every request of at least
1x1 with crop left or centered, the products formed fitting an `int`,
`thumbnailImage` returns (no division by zero); the scaled size is the cover
scaling in exact arithmetic (the clamp to 1 changes nothing) and is at least
`(w, h)`; the crop window lies inside the scaled image; and the thumbnail has
size exactly `(w, h)`. -/
theorem C11_thumbnail_exact_size (srcW srcH : Int) (i : img)
    (hW : 1 ≤ srcW) (hH : 1 ≤ srcH) (hw : 1 ≤ i.w) (hh : 1 ≤ i.h)
    (hc : i.crop = cropLeft ∨ i.crop = cropCentered)
    (p1 : srcH * i.w < 9223372036854775808) (p2 : srcW * i.h < 9223372036854775808)
    (p3 : i.w * i.h < 9223372036854775808) :
    ∃ t, thumbnailImage srcW srcH i = some t
      ∧ (t.scaleW, t.scaleH) = coverScaleExact srcW srcH i
      ∧ i.w ≤ t.scaleW ∧ i.h ≤ t.scaleH
      ∧ 0 ≤ t.crop.Min.X ∧ 0 ≤ t.crop.Min.Y
      ∧ t.crop.Max.X ≤ t.scaleW ∧ t.crop.Max.Y ≤ t.scaleH
      ∧ t.size = (i.w, i.h) := by
  obtain ⟨hs, c1, c2, c3, c4⟩ := thumbnailScale_cover srcW srcH i hW hH hw hh p1 p2 p3
  obtain ⟨c, hcrop, d1, d2, d3, d4, d5, d6⟩ :=
    thumbnailCrop_inside _ _ i hw hh c1 c2 c3 c4 hc
  have hres : imagingResize srcW srcH (coverScaleExact srcW srcH i).1
      (coverScaleExact srcW srcH i).2
      = ((coverScaleExact srcW srcH i).1, (coverScaleExact srcW srcH i).2) :=
    imagingResize_pos _ _ _ _ hW hH (by omega) (by omega)
  have hsize := imagingCrop_inside _ _ _ _ c d1 d2 d3 d4 d5 d6 hw hh c3 c4
  refine ⟨{ scaleW := (coverScaleExact srcW srcH i).1, scaleH := (coverScaleExact srcW srcH i).2,
            crop := c, size := (i.w, i.h) }, ?_, rfl, c1, c2, d1, d2, d3, d4, rfl⟩
  unfold thumbnailImage
  simp only [Option.bind_eq_bind, Option.pure_def, hs, Option.some_bind, hcrop, hres, hsize]

/-- C11 at a 3x7 source requested at 100x100 centered: the scaled size is
100x233, the window is (0,66)-(100,166), and the thumbnail is 100x100. -/
theorem C11_thumbnail_exact_size_witness :
    ∃ t, thumbnailImage 3 7 ⟨"a.png", ".png", 100, 100, cropCentered⟩ = some t
      ∧ (t.scaleW, t.scaleH) = (100, 233)
      ∧ t.crop.Max.Y ≤ t.scaleH
      ∧ t.size = (100, 100) := by
  obtain ⟨t, h1, h2, _, _, _, _, _, h8, h9⟩ :=
    C11_thumbnail_exact_size 3 7 ⟨"a.png", ".png", 100, 100, cropCentered⟩
      (by decide) (by decide) (by decide) (by decide) (Or.inr rfl)
      (by decide) (by decide) (by decide)
  exact ⟨t, h1, by rw [h2]; decide, h8, h9⟩

/-! ### C12: where `processMeta` cuts the block -/

/-- C12 (the code at a front matter whose first line ends in `---`): the file
is `---`, `title: Intro ---`, `layout: post`, `---`, then the body.  Its first
later line equal to the delimiter is the fourth line, and `load` sets `metaEnd`
to 38, just after it.  But `processMeta` cuts at the first occurrence of the
delimiter bytes, which is inside the line `title: Intro ---`: the block handed
to `TrimSpace` and merged is the 14 bytes before it, so `title: Intro` is
merged and `layout: post` is lost, while the bytes between the two delimiter
lines trim to `title: Intro ---`, `layout: post`.  On the test file `post1.md`,
which has no such line, the merged block is `title: test`. -/
theorem C12_block_cut_inside_a_line :
    BodyLines (utf8 "title: Intro ---\nlayout: post\n")
      ∧ (∀ L : Lib,
          load L (fsOne (utf8 "---\ntitle: Intro ---\nlayout: post\n---\n# body\n")) demoContent
            = .ok (merge L { demoContent with metaEnd := 38 }
                (L.TrimSpace (utf8 "\ntitle: Intro "))))
      ∧ (load demoLib (fsOne (utf8 "---\ntitle: Intro ---\nlayout: post\n---\n# body\n"))
            demoContent).toOption.map (fun r => (r.c.metaEnd, r.c.«meta»))
          = some (38, [utf8 "title: Intro"])
      ∧ demoLib.TrimSpace (utf8 "title: Intro ---\nlayout: post\n")
          = utf8 "title: Intro ---\nlayout: post"
      ∧ utf8 "title: Intro ---\nlayout: post" ≠ utf8 "title: Intro"
      ∧ Index ((utf8 "---\ntitle: Intro ---\nlayout: post\n---\n").drop 3) metaDelim = 14
      ∧ (load demoLib (fsOne (utf8 "---\ntitle: test\n---\n# post 1\n"))
            demoContent).toOption.map (fun r => (r.c.metaEnd, r.c.«meta»))
          = some (20, [utf8 "title: test"]) :=
  ⟨BodyLines.cons (utf8 "title: Intro ---") (utf8 "layout: post\n") (by decide) (by decide)
      (BodyLines.cons (utf8 "layout: post") [] (by decide) (by decide) BodyLines.nil),
    fun _ => rfl, by decide, by decide, by decide, by decide, by decide⟩

/-! ### C13: the result of `scale` is recorded once and replayed -/

theorem claimDest_heap (cs : contents) (dst : String) (c : Ptr) :
    (cs.claimDest dst c).1.heap = cs.heap := by
  unfold contents.claimDest
  cases h : cs.dsts dst with
  | none => rfl
  | some co =>
    by_cases e : co = c
    · simp [e]
    · simp [e]

theorem setPc_same (pcs : Nat → Pc) (k : Nat) (pc : Pc) : setPc pcs k pc k = pc := by
  simp [setPc]

theorem setPc_other (pcs : Nat → Pc) (k j : Nat) (pc : Pc) (h : j ≠ k) :
    setPc pcs k pc j = pcs j := by
  simp [setPc, h]

theorem pending_owns (pc : Pc) (d : String) (h : pc.pending = some d) : pc.owns = some d := by
  cases pc <;> simp_all [Pc.pending, Pc.owns]

theorem result_owns (pc : Pc) (d : String) (p : Point) (h : pc.result = some (d, p)) :
    pc.owns = some d := by
  cases pc with
  | returned o i w h d e => cases o <;> simp_all [Pc.result, Pc.owns]
  | _ => simp_all [Pc.result, Pc.owns]

/-- The work changes neither the registry nor the map. -/
theorem scaleWork_frame (W : ImgWorld) (st : ImgState) (c : Ptr) (i : img) (d : String) :
    (scaleWork W st c i d).1.cs = st.cs ∧ (scaleWork W st c i d).1.scaled = st.scaled := by
  unfold scaleWork
  simp only
  split
  · split
    · exact ⟨rfl, rfl⟩
    · split <;> exact ⟨rfl, rfl⟩
  · split
    · exact ⟨rfl, rfl⟩
    · split
      · exact ⟨rfl, rfl⟩
      · split
        · exact ⟨rfl, rfl⟩
        · split <;> exact ⟨rfl, rfl⟩

/-- The three ways the first step of a call can go: the destination is free
and the call becomes its owner; the content item owns it already and the call
waits; another item owns it and the call returns the conflict. -/
theorem scaleStep_start (W : ImgWorld) (c : Ptr) (st : ImgState) (i : img) :
    (st.cs.dsts (W.staticDest (st.cs.heap c) "img" (getNewExt i)) = none
        ∧ scaleStep W c st (.start i)
          = ({ st with cs := { st.cs with
                dsts := mapSet st.cs.dsts (W.staticDest (st.cs.heap c) "img" (getNewExt i)) c } },
              .working i (W.staticDest (st.cs.heap c) "img" (getNewExt i))))
      ∨ (st.cs.dsts (W.staticDest (st.cs.heap c) "img" (getNewExt i)) = some c
        ∧ scaleStep W c st (.start i)
          = (st, .waiting i (W.staticDest (st.cs.heap c) "img" (getNewExt i))))
      ∨ (∃ co e, co ≠ c
        ∧ st.cs.dsts (W.staticDest (st.cs.heap c) "img" (getNewExt i)) = some co
        ∧ scaleStep W c st (.start i)
          = (st, .returned false i 0 0 (W.staticDest (st.cs.heap c) "img" (getNewExt i))
              (some e))) := by
  cases h : st.cs.dsts (W.staticDest (st.cs.heap c) "img" (getNewExt i)) with
  | none =>
    left
    refine ⟨rfl, ?_⟩
    simp only [scaleStep, claimStaticDest, claimDest_of_free _ _ _ h]
    simp
  | some co =>
    right
    by_cases e : co = c
    · left
      subst e
      refine ⟨rfl, ?_⟩
      simp only [scaleStep, claimStaticDest, claimDest_of_self _ _ _ h]
      simp
    · right
      refine ⟨co, conflictMsg (W.staticDest (st.cs.heap c) "img" (getNewExt i))
        (st.cs.heap co).f.srcPath, e, rfl, ?_⟩
      simp only [scaleStep, claimStaticDest, claimDest_of_other _ _ co c e h]
      simp

theorem sysInv_start (W : ImgWorld) (c : Ptr) (cs : contents) (reqs : Nat → img) :
    SysInv W c cs.heap (sysStart cs reqs) :=
  { heap := rfl
    dest := fun k i d h => by simp [sysStart, Pc.sig] at h
    owned := fun k d h => by simp [sysStart, Pc.owns] at h
    unique := fun k1 k2 d h => by simp [sysStart, Pc.owns] at h
    pending := fun k d h => by simp [sysStart, Pc.pending] at h
    recorded := fun k d p h => by simp [sysStart, Pc.result] at h
    source := fun d p h => by simp [sysStart] at h
    replayed := fun j i w h d e => by simp [sysStart] at e }

/-- A `claimDest` call by anyone keeps the invariant. -/
theorem sysInv_claim (W : ImgWorld) (c : Ptr) (H : Ptr → content) (s : ImgSys)
    (dst : String) (p : Ptr) (inv : SysInv W c H s) :
    SysInv W c H { st := { s.st with cs := (s.st.cs.claimDest dst p).1 }, pcs := s.pcs } :=
  { heap := by
      show (s.st.cs.claimDest dst p).1.heap = H
      rw [claimDest_heap]
      exact inv.heap
    dest := inv.dest
    owned := fun k d h => claimDest_keeps _ _ _ _ _ (inv.owned k d h)
    unique := inv.unique
    pending := inv.pending
    recorded := inv.recorded
    source := inv.source
    replayed := inv.replayed }

/-- A step that changes neither the claims nor the map, and leaves the call
owning what it owned, keeps the invariant. -/
theorem sysInv_quiet (W : ImgWorld) (c : Ptr) (H : Ptr → content) (s : ImgSys) (k : Nat)
    (st1 : ImgState) (pc : Pc) (inv : SysInv W c H s)
    (hcs : st1.cs = s.st.cs) (hsc : st1.scaled = s.st.scaled)
    (ho : pc.owns = (s.pcs k).owns) (hp : pc.pending = (s.pcs k).pending)
    (hr : pc.result = (s.pcs k).result)
    (hsig : ∀ i d, pc.sig = some (i, d) → d = W.staticDest (H c) "img" (getNewExt i))
    (hrep : ∀ i w h d, pc = .returned false i w h d none →
      s.st.scaled d = some { X := w, Y := h }) :
    SysInv W c H { st := st1, pcs := setPc s.pcs k pc } := by
  have eo : ∀ j, (setPc s.pcs k pc j).owns = (s.pcs j).owns := by
    intro j
    by_cases hj : j = k
    · subst hj
      rw [setPc_same, ho]
    · rw [setPc_other _ _ _ _ hj]
  have ep : ∀ j, (setPc s.pcs k pc j).pending = (s.pcs j).pending := by
    intro j
    by_cases hj : j = k
    · subst hj
      rw [setPc_same, hp]
    · rw [setPc_other _ _ _ _ hj]
  have er : ∀ j, (setPc s.pcs k pc j).result = (s.pcs j).result := by
    intro j
    by_cases hj : j = k
    · subst hj
      rw [setPc_same, hr]
    · rw [setPc_other _ _ _ _ hj]
  refine
    { heap := ?_, dest := ?_, owned := ?_, unique := ?_, pending := ?_, recorded := ?_,
      source := ?_, replayed := ?_ }
  · show st1.cs.heap = H
    rw [hcs]
    exact inv.heap
  · intro j i d h
    by_cases hj : j = k
    · subst hj
      simp only [setPc_same] at h
      exact hsig i d h
    · simp only [setPc_other _ _ _ _ hj] at h
      exact inv.dest j i d h
  · intro j d h
    show st1.cs.dsts d = some c
    rw [hcs]
    simp only [eo] at h
    exact inv.owned j d h
  · intro k1 k2 d h1 h2
    simp only [eo] at h1 h2
    exact inv.unique k1 k2 d h1 h2
  · intro j d h
    show st1.scaled d = none
    rw [hsc]
    simp only [ep] at h
    exact inv.pending j d h
  · intro j d p h
    show st1.scaled d = some p
    rw [hsc]
    simp only [er] at h
    exact inv.recorded j d p h
  · intro d p h
    have h1 : s.st.scaled d = some p := by
      rw [← hsc]
      exact h
    obtain ⟨k0, hk0⟩ := inv.source d p h1
    exact ⟨k0, by simp only [er]; exact hk0⟩
  · intro j i w h d e
    show st1.scaled d = some { X := w, Y := h }
    rw [hsc]
    by_cases hj : j = k
    · subst hj
      simp only [setPc_same] at e
      exact hrep i w h d e
    · simp only [setPc_other _ _ _ _ hj] at e
      exact inv.replayed j i w h d e

/-- The step that makes a call the owner of a free destination keeps the
invariant. -/
theorem sysInv_claimed (W : ImgWorld) (c : Ptr) (H : Ptr → content) (s : ImgSys) (k : Nat)
    (i : img) (d : String) (inv : SysInv W c H s)
    (hk : s.pcs k = .start i) (hfree : s.st.cs.dsts d = none)
    (hd : d = W.staticDest (H c) "img" (getNewExt i)) :
    SysInv W c H
      { st := { s.st with cs := { s.st.cs with dsts := mapSet s.st.cs.dsts d c } }
        pcs := setPc s.pcs k (.working i d) } := by
  have hnone : ∀ j, (s.pcs j).owns ≠ some d := by
    intro j h
    have := inv.owned j d h
    rw [hfree] at this
    cases this
  refine
    { heap := inv.heap, dest := ?_, owned := ?_, unique := ?_, pending := ?_, recorded := ?_,
      source := ?_, replayed := ?_ }
  · intro j i2 d2 h
    by_cases hj : j = k
    · subst hj
      simp only [setPc_same, Pc.sig, Option.some.injEq, Prod.mk.injEq] at h
      rw [← h.1, ← h.2]
      exact hd
    · simp only [setPc_other _ _ _ _ hj] at h
      exact inv.dest j i2 d2 h
  · intro j d2 h
    show mapSet s.st.cs.dsts d c d2 = some c
    unfold mapSet
    by_cases e : d2 = d
    · simp [e]
    · simp only [e, if_false]
      by_cases hj : j = k
      · subst hj
        simp only [setPc_same, Pc.owns, Option.some.injEq] at h
        exact absurd h.symm e
      · simp only [setPc_other _ _ _ _ hj] at h
        exact inv.owned j d2 h
  · intro k1 k2 d2 h1 h2
    by_cases h1k : k1 = k
    · by_cases h2k : k2 = k
      · rw [h1k, h2k]
      · subst h1k
        simp only [setPc_same, Pc.owns, Option.some.injEq] at h1
        simp only [setPc_other _ _ _ _ h2k] at h2
        rw [← h1] at h2
        exact absurd h2 (hnone k2)
    · by_cases h2k : k2 = k
      · subst h2k
        simp only [setPc_same, Pc.owns, Option.some.injEq] at h2
        simp only [setPc_other _ _ _ _ h1k] at h1
        rw [← h2] at h1
        exact absurd h1 (hnone k1)
      · simp only [setPc_other _ _ _ _ h1k] at h1
        simp only [setPc_other _ _ _ _ h2k] at h2
        exact inv.unique k1 k2 d2 h1 h2
  · intro j d2 h
    show s.st.scaled d2 = none
    by_cases hj : j = k
    · subst hj
      simp only [setPc_same, Pc.pending, Option.some.injEq] at h
      subst h
      cases hs : s.st.scaled d with
      | none => rfl
      | some p =>
        obtain ⟨k0, hk0⟩ := inv.source d p hs
        exact absurd (result_owns _ _ _ hk0) (hnone k0)
    · simp only [setPc_other _ _ _ _ hj] at h
      exact inv.pending j d2 h
  · intro j d2 p h
    show s.st.scaled d2 = some p
    by_cases hj : j = k
    · subst hj
      simp [setPc_same, Pc.result] at h
    · simp only [setPc_other _ _ _ _ hj] at h
      exact inv.recorded j d2 p h
  · intro d2 p h
    obtain ⟨k0, hk0⟩ := inv.source d2 p h
    have hne : k0 ≠ k := by
      intro e
      rw [e, hk] at hk0
      simp [Pc.result] at hk0
    refine ⟨k0, ?_⟩
    show (setPc s.pcs k (.working i d) k0).result = some (d2, p)
    rw [setPc_other _ _ _ _ hne]
    exact hk0
  · intro j i2 w h d2 e
    show s.st.scaled d2 = some { X := w, Y := h }
    by_cases hj : j = k
    · subst hj
      simp [setPc_same] at e
    · simp only [setPc_other _ _ _ _ hj] at e
      exact inv.replayed j i2 w h d2 e

/-- The deferred store keeps the invariant. -/
theorem sysInv_stored (W : ImgWorld) (c : Ptr) (H : Ptr → content) (s : ImgSys) (k : Nat)
    (i : img) (d : String) (w h : Int) (out : Option (Option String)) (pc : Pc)
    (inv : SysInv W c H s) (hk : s.pcs k = .storing i d w h out)
    (ho : pc.owns = some d) (hp : pc.pending = none)
    (hr : pc.result = some (d, { X := w, Y := h })) (hsig : pc.sig = some (i, d))
    (hrep : ∀ i2 w2 h2 d2, pc ≠ .returned false i2 w2 h2 d2 none) :
    SysInv W c H
      { st := { s.st with scaled := mapSet s.st.scaled d { X := w, Y := h } }
        pcs := setPc s.pcs k pc } := by
  have hko : (s.pcs k).owns = some d := by
    rw [hk]
    rfl
  have eo : ∀ j, (setPc s.pcs k pc j).owns = (s.pcs j).owns := by
    intro j
    by_cases hj : j = k
    · subst hj
      rw [setPc_same, ho, hko]
    · rw [setPc_other _ _ _ _ hj]
  have hother : ∀ j d2, j ≠ k → (s.pcs j).owns = some d2 → d2 ≠ d := by
    intro j d2 hj h e
    rw [e] at h
    exact hj (inv.unique j k d h hko)
  have hpend : s.st.scaled d = none := inv.pending k d (by rw [hk]; rfl)
  refine
    { heap := inv.heap, dest := ?_, owned := ?_, unique := ?_, pending := ?_, recorded := ?_,
      source := ?_, replayed := ?_ }
  · intro j i2 d2 h1
    by_cases hj : j = k
    · subst hj
      simp only [setPc_same, hsig, Option.some.injEq, Prod.mk.injEq] at h1
      rw [← h1.1, ← h1.2]
      exact inv.dest j i d (by rw [hk]; rfl)
    · simp only [setPc_other _ _ _ _ hj] at h1
      exact inv.dest j i2 d2 h1
  · intro j d2 h1
    simp only [eo] at h1
    exact inv.owned j d2 h1
  · intro k1 k2 d2 h1 h2
    simp only [eo] at h1 h2
    exact inv.unique k1 k2 d2 h1 h2
  · intro j d2 h1
    show mapSet s.st.scaled d _ d2 = none
    by_cases hj : j = k
    · subst hj
      simp only [setPc_same, hp] at h1
      cases h1
    · simp only [setPc_other _ _ _ _ hj] at h1
      have hne := hother j d2 hj (pending_owns _ _ h1)
      unfold mapSet
      simp only [hne, if_false]
      exact inv.pending j d2 h1
  · intro j d2 p h1
    show mapSet s.st.scaled d _ d2 = some p
    by_cases hj : j = k
    · subst hj
      simp only [setPc_same, hr, Option.some.injEq, Prod.mk.injEq] at h1
      rw [← h1.1, ← h1.2]
      simp [mapSet]
    · simp only [setPc_other _ _ _ _ hj] at h1
      have hne := hother j d2 hj (result_owns _ _ _ h1)
      unfold mapSet
      simp only [hne, if_false]
      exact inv.recorded j d2 p h1
  · intro d2 p h1
    have h2 : mapSet s.st.scaled d { X := w, Y := h } d2 = some p := h1
    unfold mapSet at h2
    by_cases e : d2 = d
    · simp only [e, if_true, Option.some.injEq] at h2
      refine ⟨k, ?_⟩
      show (setPc s.pcs k pc k).result = some (d2, p)
      rw [setPc_same, hr, e, h2]
    · simp only [e, if_false] at h2
      obtain ⟨k0, hk0⟩ := inv.source d2 p h2
      have hne : k0 ≠ k := by
        intro e2
        rw [e2, hk] at hk0
        simp [Pc.result] at hk0
      refine ⟨k0, ?_⟩
      show (setPc s.pcs k pc k0).result = some (d2, p)
      rw [setPc_other _ _ _ _ hne]
      exact hk0
  · intro j i2 w2 h2 d2 e
    show mapSet s.st.scaled d _ d2 = some { X := w2, Y := h2 }
    by_cases hj : j = k
    · subst hj
      simp only [setPc_same] at e
      exact absurd e (hrep i2 w2 h2 d2)
    · simp only [setPc_other _ _ _ _ hj] at e
      have hold := inv.replayed j i2 w2 h2 d2 e
      have hne : d2 ≠ d := by
        intro e2
        rw [e2, hpend] at hold
        cases hold
      unfold mapSet
      simp only [hne, if_false]
      exact hold

/-- Every action keeps the invariant. -/
theorem sysInv_step (W : ImgWorld) (c : Ptr) (H : Ptr → content) (s : ImgSys) (a : ImgAct)
    (inv : SysInv W c H s) : SysInv W c H (sysStep W c s a) := by
  cases a with
  | claim dst p => exact sysInv_claim W c H s dst p inv
  | run k =>
    show SysInv W c H
      { st := (scaleStep W c s.st (s.pcs k)).1
        pcs := setPc s.pcs k (scaleStep W c s.st (s.pcs k)).2 }
    cases hk : s.pcs k with
    | start i =>
      have hH : s.st.cs.heap = H := inv.heap
      rcases scaleStep_start W c s.st i with ⟨hfree, e⟩ | ⟨hown, e⟩ | ⟨co, msg, hco, hown, e⟩
      · rw [e]
        exact sysInv_claimed W c H s k i _ inv hk hfree (by rw [hH])
      · rw [e]
        refine sysInv_quiet W c H s k _ _ inv rfl rfl ?_ ?_ ?_ ?_ ?_
        · rw [hk]
          rfl
        · rw [hk]
          rfl
        · rw [hk]
          rfl
        · intro i2 d2 h
          simp only [Pc.sig, Option.some.injEq, Prod.mk.injEq] at h
          rw [← h.1, ← h.2, hH]
        · intro i2 w h d2 e2
          cases e2
      · rw [e]
        refine sysInv_quiet W c H s k _ _ inv rfl rfl ?_ ?_ ?_ ?_ ?_
        · rw [hk]
          rfl
        · rw [hk]
          rfl
        · rw [hk]
          rfl
        · intro i2 d2 h
          simp only [Pc.sig, Option.some.injEq, Prod.mk.injEq] at h
          rw [← h.1, ← h.2, hH]
        · intro i2 w h d2 e2
          cases e2
    | waiting i d =>
      have hd := inv.dest k i d (by rw [hk]; rfl)
      cases hs : s.st.scaled d with
      | none =>
        have e : scaleStep W c s.st (.waiting i d) = (s.st, .waiting i d) := by
          simp only [scaleStep, hs]
        rw [e]
        refine sysInv_quiet W c H s k _ _ inv rfl rfl ?_ ?_ ?_ ?_ ?_
        · rw [hk]
        · rw [hk]
        · rw [hk]
        · intro i2 d2 h
          simp only [Pc.sig, Option.some.injEq, Prod.mk.injEq] at h
          rw [← h.1, ← h.2]
          exact hd
        · intro i2 w h d2 e2
          cases e2
      | some p =>
        have e : scaleStep W c s.st (.waiting i d) = (s.st, .returned false i p.X p.Y d none) := by
          simp only [scaleStep, hs]
        rw [e]
        refine sysInv_quiet W c H s k _ _ inv rfl rfl ?_ ?_ ?_ ?_ ?_
        · rw [hk]
          rfl
        · rw [hk]
          rfl
        · rw [hk]
          rfl
        · intro i2 d2 h
          simp only [Pc.sig, Option.some.injEq, Prod.mk.injEq] at h
          rw [← h.1, ← h.2]
          exact hd
        · intro i2 w h d2 e2
          cases e2
          exact hs
    | working i d =>
      have hd := inv.dest k i d (by rw [hk]; rfl)
      refine sysInv_quiet W c H s k _ _ inv (scaleWork_frame W s.st c i d).1
        (scaleWork_frame W s.st c i d).2 ?_ ?_ ?_ ?_ ?_
      · rw [hk]
        rfl
      · rw [hk]
        rfl
      · rw [hk]
        rfl
      · intro i2 d2 h
        simp only [scaleStep, Pc.sig, Option.some.injEq, Prod.mk.injEq] at h
        rw [← h.1, ← h.2]
        exact hd
      · intro i2 w h d2 e2
        simp only [scaleStep] at e2
        cases e2
    | storing i d w h out =>
      cases out with
      | none =>
        exact sysInv_stored W c H s k i d w h none (.panicked i d w h) inv hk rfl rfl rfl rfl
          (fun _ _ _ _ e => by cases e)
      | some err =>
        exact sysInv_stored W c H s k i d w h (some err) (.returned true i w h d err) inv hk
          rfl rfl rfl rfl (fun _ _ _ _ e => by cases e)
    | returned o i w h d err =>
      refine sysInv_quiet W c H s k _ _ inv rfl rfl ?_ ?_ ?_ ?_ ?_
      · rw [hk]
        rfl
      · rw [hk]
        rfl
      · rw [hk]
        rfl
      · intro i2 d2 h1
        exact inv.dest k i2 d2 (by rw [hk]; exact h1)
      · intro i2 w2 h2 d2 e2
        exact inv.replayed k i2 w2 h2 d2 (by rw [hk]; exact e2)
    | panicked i d w h =>
      refine sysInv_quiet W c H s k _ _ inv rfl rfl ?_ ?_ ?_ ?_ ?_
      · rw [hk]
        rfl
      · rw [hk]
        rfl
      · rw [hk]
        rfl
      · intro i2 d2 h1
        exact inv.dest k i2 d2 (by rw [hk]; exact h1)
      · intro i2 w2 h2 d2 e2
        cases e2

/-- The invariant holds at every point of every schedule. -/
theorem sysInv_run (W : ImgWorld) (c : Ptr) (H : Ptr → content) (acts : List ImgAct)
    (s : ImgSys) (inv : SysInv W c H s) : SysInv W c H (sysRun W c s acts) := by
  induction acts generalizing s with
  | nil => exact inv
  | cons a rest ih => exact ih _ (sysInv_step W c H s a inv)

/-- What the first step of a call does when the destination of its request is
owned by the content item already: the call goes to wait and nothing changes. -/
theorem scaleStep_start_claimed (W : ImgWorld) (c : Ptr) (st : ImgState) (i : img)
    (h : st.cs.dsts (W.staticDest (st.cs.heap c) "img" (getNewExt i)) = some c) :
    scaleStep W c st (.start i)
      = (st, .waiting i (W.staticDest (st.cs.heap c) "img" (getNewExt i))) := by
  rcases scaleStep_start W c st i with ⟨h1, _⟩ | ⟨_, e⟩ | ⟨co, _, hco, h1, _⟩
  · rw [h] at h1
    cases h1
  · exact e
  · rw [h] at h1
    cases h1
    exact absurd rfl hco

/-- A look at the map that finds nothing leaves the call waiting. -/
theorem scaleStep_waiting_none (W : ImgWorld) (c : Ptr) (st : ImgState) (i : img) (d : String)
    (h : st.scaled d = none) : scaleStep W c st (.waiting i d) = (st, .waiting i d) := by
  simp only [scaleStep, h]

/-- A look at the map that finds a size returns it. -/
theorem scaleStep_waiting_some (W : ImgWorld) (c : Ptr) (st : ImgState) (i : img) (d : String)
    (p : Point) (h : st.scaled d = some p) :
    scaleStep W c st (.waiting i d) = (st, .returned false i p.X p.Y d none) := by
  simp only [scaleStep, h]

/-- A step of a call that is not at work leaves the events and the count of
images as they were. -/
theorem scaleStep_idle (W : ImgWorld) (c : Ptr) (st : ImgState) (pc : Pc)
    (h : ∀ i d, pc ≠ .working i d) :
    (scaleStep W c st pc).1.events = st.events ∧ (scaleStep W c st pc).1.imgs = st.imgs
      ∧ (∀ i d, (scaleStep W c st pc).2 = .working i d →
          pc = .start i ∧ st.cs.dsts d = none) := by
  cases pc with
  | start i =>
    rcases scaleStep_start W c st i with ⟨hfree, e⟩ | ⟨_, e⟩ | ⟨co, msg, _, _, e⟩
    · rw [e]
      refine ⟨rfl, rfl, ?_⟩
      intro i2 d2 e2
      simp only [Pc.working.injEq] at e2
      rw [← e2.1, ← e2.2]
      exact ⟨rfl, hfree⟩
    · rw [e]
      exact ⟨rfl, rfl, fun _ _ e2 => by cases e2⟩
    · rw [e]
      exact ⟨rfl, rfl, fun _ _ e2 => by cases e2⟩
  | waiting i d =>
    cases hs : st.scaled d with
    | none =>
      rw [scaleStep_waiting_none W c st i d hs]
      exact ⟨rfl, rfl, fun _ _ e2 => by cases e2⟩
    | some p =>
      rw [scaleStep_waiting_some W c st i d p hs]
      exact ⟨rfl, rfl, fun _ _ e2 => by cases e2⟩
  | working i d => exact absurd rfl (h i d)
  | storing i d w h out =>
    cases out with
    | none => exact ⟨rfl, rfl, fun _ _ e2 => by cases e2⟩
    | some err => exact ⟨rfl, rfl, fun _ _ e2 => by cases e2⟩
  | returned o i w h d err => exact ⟨rfl, rfl, fun _ _ e2 => by cases e2⟩
  | panicked i d w h => exact ⟨rfl, rfl, fun _ _ e2 => by cases e2⟩

/-- C13: the calls of `scale` on the generator of a content item `c`, run side
by side in any order from the generator as `getGenerator` makes it, with
`claimDest` calls by anyone in between; `s` is any point of any such schedule.
(1) A call that owns the claim never waits: its next step does the work, and
the step after that stores the `(w, h)` it is about to return under `dstPath`
and returns (or lets the panic go on).
(2) Whenever an owning call has returned `(w, h, dstPath, err)`, on any of its
return paths, the map holds `(w, h)` under `dstPath`, and `dstPath` is the path
of the signature of its request.
(3) A call that found the destination claimed, and is waiting, changes nothing
by a look at the map; it goes on waiting while the map has no entry, and once
the owner has returned its next look returns exactly the owner's `(w, h)`, the
same `dstPath` and a nil error.
(4) A call with the same signature that starts when the destination has an
owner finds it claimed and goes to wait, changing nothing; if the owner has
returned already, its first two steps return the owner's `(w, h)` and `dstPath`
and leave the whole state, events included, as it was.
(5) A call that found the destination claimed and has returned nil returned
the size in the map, which an owning call stored, and which is the size every
owning call of that destination returned.
(6) Only a call at work adds an event or counts an image, and a call gets to
work only from its first step, on a destination that nobody had claimed.
(7) A destination has at most one owning call. -/
theorem C13_scale_records_and_replays (W : ImgWorld) (c : Ptr) (cs : contents)
    (reqs : Nat → img) (acts : List ImgAct) (s : ImgSys)
    (hs : s = sysRun W c (sysStart cs reqs) acts) :
    (∀ k i d, s.pcs k = .working i d →
        ∃ w h out, (sysStep W c s (.run k)).pcs k = .storing i d w h out)
      ∧ (∀ k i d w h out, s.pcs k = .storing i d w h out →
          (sysStep W c s (.run k)).st.scaled d = some { X := w, Y := h }
            ∧ (∀ e, out = some e → (sysStep W c s (.run k)).pcs k = .returned true i w h d e)
            ∧ (out = none → (sysStep W c s (.run k)).pcs k = .panicked i d w h))
      ∧ (∀ k i w h d e, s.pcs k = .returned true i w h d e →
          s.st.scaled d = some { X := w, Y := h }
            ∧ d = W.staticDest (cs.heap c) "img" (getNewExt i))
      ∧ (∀ j i2 d, s.pcs j = .waiting i2 d →
          (sysStep W c s (.run j)).st = s.st
            ∧ (s.st.scaled d = none → (sysStep W c s (.run j)).pcs j = .waiting i2 d)
            ∧ (∀ k i w h e, s.pcs k = .returned true i w h d e →
                (sysStep W c s (.run j)).pcs j = .returned false i2 w h d none))
      ∧ (∀ k j i i2 d, (s.pcs k).owns = some d → (s.pcs k).sig = some (i, d) →
          s.pcs j = .start i2 → getNewExt i2 = getNewExt i →
          (sysStep W c s (.run j)).pcs j = .waiting i2 d ∧ (sysStep W c s (.run j)).st = s.st)
      ∧ (∀ k j i i2 w h d e, s.pcs k = .returned true i w h d e →
          s.pcs j = .start i2 → getNewExt i2 = getNewExt i →
          (sysRun W c s [.run j, .run j]).pcs j = .returned false i2 w h d none
            ∧ (sysRun W c s [.run j, .run j]).st = s.st)
      ∧ (∀ j i2 w2 h2 d, s.pcs j = .returned false i2 w2 h2 d none →
          s.st.scaled d = some { X := w2, Y := h2 }
            ∧ (∃ k, (s.pcs k).result = some (d, { X := w2, Y := h2 }))
            ∧ (∀ k i w h e, s.pcs k = .returned true i w h d e → w2 = w ∧ h2 = h))
      ∧ (∀ j, (∀ i d, s.pcs j ≠ .working i d) →
          (sysStep W c s (.run j)).st.events = s.st.events
            ∧ (sysStep W c s (.run j)).st.imgs = s.st.imgs
            ∧ (∀ i d, (sysStep W c s (.run j)).pcs j = .working i d →
                s.pcs j = .start i ∧ s.st.cs.dsts d = none))
      ∧ (∀ k1 k2 d, (s.pcs k1).owns = some d → (s.pcs k2).owns = some d → k1 = k2) := by
  have inv : SysInv W c cs.heap s := by
    rw [hs]
    exact sysInv_run W c cs.heap acts _ (sysInv_start W c cs reqs)
  have hstep : ∀ j, (sysStep W c s (.run j)).pcs j = (scaleStep W c s.st (s.pcs j)).2 := by
    intro j
    show setPc s.pcs j _ j = _
    rw [setPc_same]
  have hst : ∀ j, (sysStep W c s (.run j)).st = (scaleStep W c s.st (s.pcs j)).1 := fun _ => rfl
  have hclaimed : ∀ k i i2 d, (s.pcs k).owns = some d → (s.pcs k).sig = some (i, d) →
      getNewExt i2 = getNewExt i →
      scaleStep W c s.st (.start i2) = (s.st, .waiting i2 d) := by
    intro k i i2 d ho hsig hext
    have hd : W.staticDest (s.st.cs.heap c) "img" (getNewExt i2) = d := by
      rw [inv.heap, hext]
      exact (inv.dest k i d hsig).symm
    have h := scaleStep_start_claimed W c s.st i2 (by rw [hd]; exact inv.owned k d ho)
    rw [hd] at h
    exact h
  refine ⟨?_, ?_, ?_, ?_, ?_, ?_, ?_, ?_, ?_⟩
  · intro k i d hk
    rw [hstep, hk]
    exact ⟨_, _, _, rfl⟩
  · intro k i d w h out hk
    rw [hstep, hst, hk]
    cases out with
    | none =>
      refine ⟨?_, ?_, ?_⟩
      · simp [scaleStep, mapSet]
      · intro e he
        cases he
      · intro _
        rfl
    | some err =>
      refine ⟨?_, ?_, ?_⟩
      · simp [scaleStep, mapSet]
      · intro e he
        cases he
        rfl
      · intro he
        cases he
  · intro k i w h d e hk
    exact ⟨inv.recorded k d _ (by rw [hk]; rfl), inv.dest k i d (by rw [hk]; rfl)⟩
  · intro j i2 d hj
    rw [hstep, hst, hj]
    cases hsc : s.st.scaled d with
    | none =>
      rw [scaleStep_waiting_none W c s.st i2 d hsc]
      refine ⟨rfl, fun _ => rfl, ?_⟩
      intro k i w h e hk
      have := inv.recorded k d _ (show (s.pcs k).result = some (d, { X := w, Y := h }) by
        rw [hk]; rfl)
      rw [hsc] at this
      cases this
    | some p =>
      rw [scaleStep_waiting_some W c s.st i2 d p hsc]
      refine ⟨rfl, ?_, ?_⟩
      · intro h
        cases h
      intro k i w h e hk
      have := inv.recorded k d _ (show (s.pcs k).result = some (d, { X := w, Y := h }) by
        rw [hk]; rfl)
      rw [hsc] at this
      cases this
      rfl
  · intro k j i i2 d ho hsig hj hext
    rw [hstep, hst, hj, hclaimed k i i2 d ho hsig hext]
    exact ⟨rfl, rfl⟩
  · intro k j i i2 w h d e hk hj hext
    have h1 := hclaimed k i i2 d (by rw [hk]; rfl) (by rw [hk]; rfl) hext
    have hsc := inv.recorded k d _ (show (s.pcs k).result = some (d, { X := w, Y := h }) by
      rw [hk]; rfl)
    have e1 : sysStep W c s (.run j) = { st := s.st, pcs := setPc s.pcs j (.waiting i2 d) } := by
      show ({ st := (scaleStep W c s.st (s.pcs j)).1
              pcs := setPc s.pcs j (scaleStep W c s.st (s.pcs j)).2 } : ImgSys) = _
      rw [hj, h1]
    show (sysStep W c (sysStep W c s (.run j)) (.run j)).pcs j = _
      ∧ (sysStep W c (sysStep W c s (.run j)) (.run j)).st = _
    rw [e1]
    show setPc _ j (scaleStep W c s.st (setPc s.pcs j (.waiting i2 d) j)).2 j = _
      ∧ (scaleStep W c s.st (setPc s.pcs j (.waiting i2 d) j)).1 = _
    rw [setPc_same, setPc_same, scaleStep_waiting_some W c s.st i2 d _ hsc]
    exact ⟨rfl, rfl⟩
  · intro j i2 w2 h2 d hj
    have hsc := inv.replayed j i2 w2 h2 d hj
    refine ⟨hsc, inv.source d _ hsc, ?_⟩
    intro k i w h e hk
    have := inv.recorded k d _ (show (s.pcs k).result = some (d, { X := w, Y := h }) by
      rw [hk]; rfl)
    rw [hsc] at this
    simp only [Option.some.injEq, Point.mk.injEq] at this
    exact this
  · intro j hj
    rw [hstep, hst]
    exact scaleStep_idle W c s.st (s.pcs j) hj
  · exact inv.unique

/-- C13 at two calls for a centred 100x100 thumbnail of `layouts/blog/img.png`:
call 0 takes the claim; call 1 finds it claimed and looks at the map, finding
nothing, once before call 0 has done its work and once before call 0 has
stored; call 0 returns 100x100; the next look of call 1 returns 100x100 and the
same path. -/
theorem C13_scale_records_and_replays_witness :
    (sysRun demoWorld 0 (sysStart imgRegistry demoReqs) demoActs).pcs 0
        = .returned true ⟨"img.png", ".png", 100, 100, cropCentered⟩ 100 100
            "public/static/img/layout/blog/img100x100.cc.png" none
      ∧ (sysRun demoWorld 0 (sysStart imgRegistry demoReqs) demoActs).pcs 1
        = .waiting ⟨"../img.png", ".png", 100, 100, cropCentered⟩
            "public/static/img/layout/blog/img100x100.cc.png"
      ∧ (sysStep demoWorld 0 (sysRun demoWorld 0 (sysStart imgRegistry demoReqs) demoActs)
          (.run 1)).pcs 1
        = .returned false ⟨"../img.png", ".png", 100, 100, cropCentered⟩ 100 100
            "public/static/img/layout/blog/img100x100.cc.png" none :=
  ⟨by decide, by decide,
    ((C13_scale_records_and_replays demoWorld 0 imgRegistry demoReqs demoActs _ rfl).2.2.2.1
      1 ⟨"../img.png", ".png", 100, 100, cropCentered⟩
      "public/static/img/layout/blog/img100x100.cc.png" (by decide)).2.2
      0 ⟨"img.png", ".png", 100, 100, cropCentered⟩ 100 100 none (by decide)⟩

/-! ### C14: what `checkErrs` writes -/

theorem utf8ByteSize_eq_zero (s : String) : s.utf8ByteSize = 0 ↔ s = "" := by
  constructor
  · intro h
    cases s with
    | mk data =>
      cases data with
      | nil => rfl
      | cons ch cs =>
        simp only [String.utf8ByteSize, String.utf8ByteSize.go] at h
        have := Char.utf8Size_pos ch
        omega
  · intro h
    subst h
    rfl

/-- A format with no `%` in it is written as it stands. -/
theorem FprintfNoOperands_plain (s : String) (h : '%' ∉ s.data) : FprintfNoOperands s = s := by
  unfold FprintfNoOperands
  have e : s.data.dropWhile (fun ch => decide (ch ≠ '%')) = [] := by
    rw [List.dropWhile_eq_nil_iff]
    intro x hx
    simp only [ne_eq, decide_not, Bool.not_eq_true', decide_eq_false_iff_not]
    intro e
    exact h (e ▸ hx)
  simp only [fmtLoop, e]

/-- Whatever the phases are, `checkErrs` returns true and writes nothing
exactly when the error text is empty; otherwise it returns false and writes what
`Fprintf` makes of the error text used as the format. -/
theorem checkErrs_writes_format {σ : Type} (P : Phases σ) (ss : siteState σ) :
    (ss.errs = "" → checkErrs P ss = (true, ss))
      ∧ (ss.errs ≠ "" →
          checkErrs P ss = (false, { ss with logOut := ss.logOut ++ P.Fprintf ss.errs }))
      ∧ ((checkErrs P ss).1 = true ↔ ss.errs = "") := by
  by_cases h : ss.errs = ""
  · have h0 : ss.errs.utf8ByteSize = 0 := (utf8ByteSize_eq_zero _).mpr h
    have e : checkErrs P ss = (true, ss) := by simp [checkErrs, h0]
    exact ⟨fun _ => e, fun hn => absurd h hn, by rw [e]; simp [h]⟩
  · have h0 : ¬ ss.errs.utf8ByteSize = 0 := fun e => h ((utf8ByteSize_eq_zero _).mp e)
    have e : checkErrs P ss
        = (false, { ss with logOut := ss.logOut ++ P.Fprintf ss.errs }) := by
      simp [checkErrs, h0]
    exact ⟨fun hn => absurd hn h, fun _ => e, by rw [e]; simp [h]⟩

/-- An error text with no `%` in it is logged as it stands. -/
theorem checkErrs_plain (ss : siteState Nat) (hp : '%' ∉ ss.errs.data) (h : ss.errs ≠ "") :
    checkErrs goPhases ss = (false, { ss with logOut := ss.logOut ++ ss.errs }) := by
  rw [(checkErrs_writes_format goPhases ss).2.1 h]
  simp only [goPhases, FprintfNoOperands_plain _ hp]

/-- C14 (the code at an error text that holds a `%`): with an empty error text
`checkErrs` returns true and writes nothing.  With the error of a source named
`content/50%off.md` it returns false, and the bytes written have `%o` replaced
by `%!o(MISSING)`; with the text `100%` the bytes written gain `!(NOVERB)`.  In
both the bytes written are not the error text, which `fmt.Fprintf` has taken as
its format. -/
theorem C14_percent_is_not_logged_verbatim :
    (checkErrs goPhases ⟨0, "", ""⟩).1 = true
      ∧ (checkErrs goPhases ⟨0, "", ""⟩).2.logOut = ""
      ∧ (checkErrs goPhases ⟨0, "open content/50%off.md: permission denied\n", ""⟩).1 = false
      ∧ (checkErrs goPhases ⟨0, "open content/50%off.md: permission denied\n", ""⟩).2.logOut
          = "open content/50%!o(MISSING)ff.md: permission denied\n"
      ∧ "open content/50%!o(MISSING)ff.md: permission denied\n"
          ≠ "open content/50%off.md: permission denied\n"
      ∧ (checkErrs goPhases ⟨0, "100%", ""⟩).2.logOut = "100%!(NOVERB)"
      ∧ (checkErrs goPhases ⟨0, "render failed\n", ""⟩).2.logOut = "render failed\n" := by
  refine ⟨by decide, by decide, by decide, by decide, by decide, by decide, by decide⟩

end Toner
